import Mathlib

/-!
Verification of the `state-anchor` repository: a shallow embedding of
`canada_fact_bank.py` and `baseline_mailer.py` in Lean 4, with theorems
checking the repository's specification against the code.

Modelling conventions:
- Python `int` is `Int` (Python `%` with a positive divisor agrees with
  `Int.emod`), Python `str` is `String` (or `List Char` for character-level
  functions), Python lists/tuples are `List`.
- Python numeric (float) values carried by the fact templates are modelled
  as exact rationals `ℚ`; `dec10 n d` denotes the decimal literal n / 10^d
  (all numeric literals in the source have one decimal digit, so this is
  exact). `f"{v:.Nf}"` formatting is modelled as exact decimal rendering
  with rounding half-up; the source's literals are never at a rounding tie,
  so the two agree on every value the program formats.
- The one outbound network call (`urlopen` inside `_fetch_world_bank_latest`)
  is modelled as an oracle parameter `fetch : WBFetch`: `none` models the
  call (or response parsing) raising one of the exceptions the caller
  catches, `some m` models a successful fetch whose latest-value map is `m`.
- Code that can raise returns `Except String _` or `Option _`.
- Python `set` membership over lists of strings is modelled by list
  membership (`List.contains`), which is extensionally the same test.
-/

/-! ## Generic helpers shared by both modules -/

/-- Decimal rational literal: `dec10 n d` is n / 10^d. -/
def dec10 (n : Int) (d : Nat) : ℚ := (n : ℚ) / 10 ^ d

/-- Left-pad a numeral string with zeros to width `d`. -/
def padZeros (s : String) (d : Nat) : String :=
  String.mk (List.replicate (d - s.length) '0') ++ s

/-- Fixed-point decimal rendering of a rational, `d` digits after the point:
the model of Python float formatting `f"{value:.{d}f}"` (rounding half-up;
the program only ever formats one-decimal literals, where the two agree). -/
def formatFixed (q : ℚ) (d : Nat) : String :=
  let scaled : Int := Rat.floor (q * (10 : ℚ) ^ d + 1 / 2)
  let base : Int := (10 : Int) ^ d
  let ip := scaled / base
  let fp := (scaled % base).toNat
  if d = 0 then toString ip
  else toString ip ++ "." ++ padZeros (toString fp) d

/-- Boolean test that `pat` starts the list `l` (model of `str.startswith`). -/
def startsWithL (pat l : List Char) : Bool :=
  match pat, l with
  | [], _ => true
  | _ :: _, [] => false
  | p :: ps, c :: cs => p = c && startsWithL ps cs

/-- Boolean test that `pat` ends the list `l` (model of `str.endswith`). -/
def endsWithL (pat l : List Char) : Bool :=
  startsWithL pat.reverse l.reverse

/-- Boolean test that `pat` occurs somewhere in `l` (model of `in` on `str`). -/
def containsSub (pat l : List Char) : Bool :=
  match l with
  | [] => pat.isEmpty
  | _ :: cs => startsWithL pat l || containsSub pat cs

/-! ## canada_fact_bank.py: data model -/

/-- A hand-authored record of `POLICY_FACTS` (a Python dict with these keys). -/
structure PolicyFact where
  id : String
  category : String
  tags : List String
  canada_fact : String
  contrast : String
  source_name : String
  source_urls : List String
  as_of : String
deriving DecidableEq, Repr

/-- A templated record of `METRIC_FACTS` (a Python dict with these keys);
`fallback` maps a country code to its hardcoded (year, value) pair. -/
structure MetricFact where
  id : String
  category : String
  tags : List String
  indicator : String
  indicator_name : String
  comparison_country : String
  higher_is_better : Bool
  decimals : Nat
  source_name : String
  fallback : List (String × String × ℚ)
deriving DecidableEq, Repr

/-- An entry of the merged fact bank `POLICY_FACTS + METRIC_FACTS`. The source
distinguishes the two shapes by `"indicator" in item`; here by the constructor. -/
inductive Blueprint where
  | policy (p : PolicyFact)
  | metric (m : MetricFact)
deriving DecidableEq, Repr

/-- The `"id"` field of a fact-bank record. -/
def Blueprint.fact_id : Blueprint → String
  | .policy p => p.id
  | .metric m => m.id

/-- The `"category"` field of a fact-bank record. -/
def Blueprint.category : Blueprint → String
  | .policy p => p.category
  | .metric m => m.category

/-- The `"tags"` field of a fact-bank record. -/
def Blueprint.tags : Blueprint → List String
  | .policy p => p.tags
  | .metric m => m.tags

/-- Dataclass `ResolvedFact` (frozen) of canada_fact_bank.py. -/
structure ResolvedFact where
  fact_id : String
  category : String
  tags : List String
  canada_fact : String
  contrast : String
  source_name : String
  source_urls : List String
  as_of : String
deriving DecidableEq, Repr

/-- Module-level table `CATEGORIES` of canada_fact_bank.py. -/
def CATEGORIES : List String := [
  "Legal & institutional protections",
  "Currency, capital, and financial system",
  "Labour mobility & credential leverage",
  "Information access & skill compounding",
  "Infrastructure & time efficiency",
  "Optionality under failure (second chances)",
  "State capacity & predictability",
  "Language and geographic optionality (e.g. English + ability to move)",
  "Language: English/French as global languages (portability of skills, no language trap)",
  "Educational opportunities (public K-12, affordable higher ed, credentials that transfer globally)",
  "Healthcare access (universal coverage, no medical bankruptcy as in the US)",
  "Political stability and peaceful transfers of power",
  "Banking and financial inclusion (everyone can hold an account, no cash-only trap)",
  "Research, libraries, and public knowledge (open access, no censorship of curricula)",
  "Labour standards (minimum wage, overtime, safety, recourse for wage theft)",
  "Property rights and contract enforcement (predictable courts, no arbitrary expropriation)",
  "Immigration and naturalization pathways (ability to naturalize, sponsor family)",
  "Press freedom and open information (no state media monopoly, access to global news)",
  "Internal mobility (freedom to move between provinces without permits or residency locks)",
  "Pension and social insurance (CPP, EI, predictable retirement floor)",
  "Clean water, sanitation, and reliable basic infrastructure",
  "Consumer and product safety regulation (food, drugs, standards)",
  "Environmental quality and public goods (air, water, parks as baseline)"]

/-- One entry of `COMPARISON_PROFILES` (a dict with keys label/tags). -/
structure ComparisonProfile where
  label : String
  tags : List String
deriving DecidableEq, Repr

/-- Module-level table `COMPARISON_PROFILES` of canada_fact_bank.py. -/
def COMPARISON_PROFILES : List ComparisonProfile := [
  { label := "low-trust economies with weak rule-of-law and corruption risk",
    tags := ["low_trust", "rule_of_law", "corruption", "zimbabwe"] },
  { label := "language/mobility traps where domestic constraints reduce exit options",
    tags := ["language_trap", "mobility", "hukou"] },
  { label := "wealthy but rigid systems with weaker second-chance mechanisms",
    tags := ["second_chance", "debt", "income_shock"] },
  { label := "systems with temporary-status work but narrow paths to citizenship",
    tags := ["citizenship", "family", "temporary_status"] },
  { label := "high-cost risk environments where one shock can impair recovery",
    tags := ["us_risk", "medical_debt", "income_shock"] },
  { label := "high-inflation settings where cash and wages erode quickly",
    tags := ["inflation", "currency", "macrostability"] },
  { label := "states with constrained press and weaker civic protections",
    tags := ["press_freedom", "civil_liberties", "information_access"] }]

/-- Module-level dict `COUNTRY_NAME` of canada_fact_bank.py. -/
def COUNTRY_NAME : List (String × String) := [
  ("CA", "Canada"),
  ("US", "United States"),
  ("ZW", "Zimbabwe"),
  ("AR", "Argentina"),
  ("JP", "Japan")]

/-- Module-level table `POLICY_FACTS` of canada_fact_bank.py, verbatim. -/
def POLICY_FACTS : List PolicyFact := [
  { id := "F001",
    category := "Internal mobility (freedom to move between provinces without permits or residency locks)",
    tags := ["mobility", "legal", "hukou", "language_trap"],
    canada_fact := "Section 6(2) of the Charter gives citizens and permanent residents the right to move to any province and pursue a livelihood there.",
    contrast := "China's hukou system ties many social benefits to local registration, which can limit migrant access in destination cities.",
    source_name := "Constitution Act, 1982 (Charter, s.6) + World Bank hukou analysis",
    source_urls := [
      "https://laws.justice.gc.ca/eng/Const/page-12.html",
      "https://blogs.worldbank.org/en/peoplemove/chinas-hukou-reform-remains-major-challenge-domestic-migrants-cities"],
    as_of := "Current law / World Bank 2024" },
  { id := "F002",
    category := "Healthcare access (universal coverage, no medical bankruptcy as in the US)",
    tags := ["healthcare", "us_risk", "medical_debt"],
    canada_fact := "Under the Canada Health Act framework, provincial public plans must cover medically necessary hospital and physician services.",
    contrast := "Commonwealth Fund reported that 32% of working-age adults in the U.S. had medical debt in 2023.",
    source_name := "Canada Health Act guidance + Commonwealth Fund affordability survey",
    source_urls := [
      "https://www.canada.ca/en/health-canada/services/health-care-system/canada-health-care-system-medicare/canada-health-act/myth-busters.html",
      "https://www.commonwealthfund.org/sites/default/files/2023-10/Collins_2023_AffordabilitySurveyTopline_PR_10-26-2023_v2.pdf"],
    as_of := "Current framework / 2023 survey" },
  { id := "F003",
    category := "Currency, capital, and financial system",
    tags := ["currency", "banking", "low_trust", "macrostability"],
    canada_fact := "CDIC insures eligible deposits up to CAD 100,000 per depositor, per insured category, at member institutions.",
    contrast := "In weakly supervised banking systems, household losses from bank failures can fall directly on depositors.",
    source_name := "Canada Deposit Insurance Corporation (CDIC)",
    source_urls := ["https://www.cdic.ca/depositors/whats-covered/"],
    as_of := "Current" },
  { id := "F004",
    category := "Currency, capital, and financial system",
    tags := ["currency", "inflation", "state_capacity", "macrostability"],
    canada_fact := "The Bank of Canada targets 2% inflation within a 1-3% control range under a jointly renewed monetary policy framework.",
    contrast := "High-inflation systems can rapidly erode purchasing power, planning horizons, and savings.",
    source_name := "Bank of Canada inflation-control framework",
    source_urls := ["https://www.bankofcanada.ca/rates/indicators/key-variables/inflation-control-target/"],
    as_of := "Renewed through end-2026" },
  { id := "F005",
    category := "Immigration and naturalization pathways (ability to naturalize, sponsor family)",
    tags := ["citizenship", "mobility", "temporary_status"],
    canada_fact := "Permanent residents can apply for citizenship after 1,095 days of physical presence in the preceding 5 years, if other criteria are met.",
    contrast := "Some high-income jurisdictions have narrow, nomination-based naturalization paths for foreigners rather than broad residence-based pathways.",
    source_name := "IRCC citizenship eligibility + UAE nationality rules",
    source_urls := [
      "https://www.canada.ca/en/immigration-refugees-citizenship/services/canadian-citizenship/become-canadian-citizen/eligibility.html",
      "https://u.ae/en/information-and-services/passports-and-traveling/emirati-nationality/provisions-allowing-foreigners-to-acquire-the-emirati-nationality"],
    as_of := "Current" },
  { id := "F006",
    category := "Immigration and naturalization pathways (ability to naturalize, sponsor family)",
    tags := ["family", "citizenship", "temporary_status"],
    canada_fact := "Canadian citizens and permanent residents can sponsor eligible spouses/partners, children, parents, and grandparents for permanent residence.",
    contrast := "In many migration systems, workers can reside temporarily but cannot secure durable status for close family.",
    source_name := "IRCC family sponsorship program",
    source_urls := ["https://www.canada.ca/en/immigration-refugees-citizenship/services/immigrate-canada/family-sponsorship.html"],
    as_of := "Current" },
  { id := "F007",
    category := "Language: English/French as global languages (portability of skills, no language trap)",
    tags := ["language", "language_trap", "mobility"],
    canada_fact := "The Official Languages Act gives English and French equal status in federal institutions and guarantees access to federal services in either language where required.",
    contrast := "Stronger bilingual institutional support reduces language lock-in and improves domestic and international mobility of skills.",
    source_name := "Official Languages Act",
    source_urls := [
      "https://laws-lois.justice.gc.ca/eng/acts/o-3.01/page-1.html",
      "https://www.canada.ca/en/treasury-board-secretariat/services/values-ethics/official-languages/public-services/bilingual-offices-facilities.html"],
    as_of := "Current" },
  { id := "F008",
    category := "Optionality under failure (second chances)",
    tags := ["second_chance", "income_shock", "state_capacity"],
    canada_fact := "Employment Insurance provides temporary income support for eligible workers who lose employment while they search for work or upgrade skills.",
    contrast := "Where unemployment insurance is weak or absent, job loss can force immediate asset depletion and shorter planning horizons.",
    source_name := "Government of Canada EI program overview",
    source_urls := ["https://www.canada.ca/en/employment-social-development/programs/ei.html"],
    as_of := "Current" },
  { id := "F009",
    category := "Pension and social insurance (CPP, EI, predictable retirement floor)",
    tags := ["pension", "state_capacity", "income_shock"],
    canada_fact := "The Canada Pension Plan is a mandatory, contributory, earnings-related social insurance program for most workers earning above CAD 3,500 (outside Quebec's QPP).",
    contrast := "Mandatory pooled pension contributions create a more predictable retirement floor than systems relying mainly on voluntary or informal saving.",
    source_name := "Canada Pension Plan contributions and program pages",
    source_urls := [
      "https://www.canada.ca/en/services/benefits/publicpensions/cpp/contributions.html",
      "https://www.canada.ca/en/employment-social-development/programs/pension-plan.html"],
    as_of := "Current" },
  { id := "F010",
    category := "Optionality under failure (second chances)",
    tags := ["second_chance", "debt", "legal"],
    canada_fact := "For a first bankruptcy, automatic discharge can occur after 9 months when conditions are met (or 21 months with surplus income obligations).",
    contrast := "A structured discharge framework provides legal second chances that are weaker or slower in many jurisdictions.",
    source_name := "Office of the Superintendent of Bankruptcy (Canada)",
    source_urls := ["https://ised-isde.canada.ca/site/office-superintendent-bankruptcy/en/you-owe-money/you-owe-money-bankruptcy-discharge-and-its-consequences-bankrupt"],
    as_of := "Current" },
  { id := "F011",
    category := "Press freedom and open information (no state media monopoly, access to global news)",
    tags := ["civil_liberties", "press_freedom", "zimbabwe", "low_trust"],
    canada_fact := "Freedom House (2025) scores Canada at 97/100 (Free).",
    contrast := "Freedom House (2025) scores Zimbabwe at 26/100 (Not Free).",
    source_name := "Freedom House, Freedom in the World 2025 country reports",
    source_urls := [
      "https://freedomhouse.org/country/canada/freedom-world/2025",
      "https://freedomhouse.org/country/zimbabwe/freedom-world/2025"],
    as_of := "2025" },
  { id := "F012",
    category := "Property rights and contract enforcement (predictable courts, no arbitrary expropriation)",
    tags := ["rule_of_law", "legal", "low_trust"],
    canada_fact := "World Justice Project Rule of Law Index 2024 ranks Canada 12th of 142 countries.",
    contrast := "Higher rule-of-law performance generally means stronger contract enforcement and lower arbitrary policy risk.",
    source_name := "World Justice Project Rule of Law Index 2024",
    source_urls := [
      "https://worldjusticeproject.org/rule-of-law-index/global/2024",
      "https://worldjusticeproject.org/sites/default/files/documents/Canada_2.pdf"],
    as_of := "2024" },
  { id := "F013",
    category := "Press freedom and open information (no state media monopoly, access to global news)",
    tags := ["press_freedom", "information_access"],
    canada_fact := "Reporters Without Borders' 2024 World Press Freedom Index ranks Canada 14th of 180.",
    contrast := "Compared with censored environments, stronger press freedom increases access to independent information and scrutiny.",
    source_name := "RSF World Press Freedom Index 2024",
    source_urls := ["https://rsf.org/en/classement/2024/americas"],
    as_of := "2024" },
  { id := "F014",
    category := "Legal & institutional protections",
    tags := ["corruption", "low_trust", "rule_of_law"],
    canada_fact := "Transparency International CPI 2024 gives Canada a score of 75/100 (rank 15/180).",
    contrast := "Lower perceived corruption reduces everyday bribery risk and improves policy predictability for households and firms.",
    source_name := "Transparency International country profile (Canada)",
    source_urls := ["https://www.transparency.org/en/countries/canada"],
    as_of := "2024" },
  { id := "F015",
    category := "Political stability and peaceful transfers of power",
    tags := ["stability", "state_capacity"],
    canada_fact := "Global Peace Index 2024 ranks Canada 11th of 163.",
    contrast := "Higher peacefulness reduces disruption risk to work, schooling, logistics, and long-term planning.",
    source_name := "Institute for Economics & Peace, Global Peace Index 2024",
    source_urls := ["https://www.economicsandpeace.org/report/global-peace-index-2024/"],
    as_of := "2024" }]

/-- Module-level table `METRIC_FACTS` of canada_fact_bank.py, verbatim
(numeric fallback values as exact decimals). -/
def METRIC_FACTS : List MetricFact := [
  { id := "F101",
    category := "Healthcare access (universal coverage, no medical bankruptcy as in the US)",
    tags := ["healthcare", "us_risk"],
    indicator := "SP.DYN.LE00.IN",
    indicator_name := "Life expectancy at birth, total (years)",
    comparison_country := "US",
    higher_is_better := true,
    decimals := 1,
    source_name := "World Bank WDI",
    fallback := [("CA", ("2023", dec10 816 1)), ("US", ("2023", dec10 784 1))] },
  { id := "F102",
    category := "Political stability and peaceful transfers of power",
    tags := ["stability", "us_risk", "public_safety"],
    indicator := "VC.IHR.PSRC.P5",
    indicator_name := "Intentional homicides (per 100,000 people)",
    comparison_country := "US",
    higher_is_better := false,
    decimals := 1,
    source_name := "World Bank WDI",
    fallback := [("CA", ("2023", dec10 20 1)), ("US", ("2023", dec10 58 1))] },
  { id := "F103",
    category := "Clean water, sanitation, and reliable basic infrastructure",
    tags := ["infrastructure", "water", "zimbabwe", "low_trust"],
    indicator := "SH.H2O.SMDW.ZS",
    indicator_name := "People using safely managed drinking water services (% of population)",
    comparison_country := "ZW",
    higher_is_better := true,
    decimals := 1,
    source_name := "World Bank WDI (WHO/UNICEF JMP)",
    fallback := [("CA", ("2024", dec10 969 1)), ("ZW", ("2024", dec10 255 1))] },
  { id := "F104",
    category := "Clean water, sanitation, and reliable basic infrastructure",
    tags := ["infrastructure", "sanitation", "zimbabwe", "low_trust"],
    indicator := "SH.STA.SMSS.ZS",
    indicator_name := "People using safely managed sanitation services (% of population)",
    comparison_country := "ZW",
    higher_is_better := true,
    decimals := 1,
    source_name := "World Bank WDI (WHO/UNICEF JMP)",
    fallback := [("CA", ("2024", dec10 813 1)), ("ZW", ("2024", dec10 236 1))] },
  { id := "F105",
    category := "Infrastructure & time efficiency",
    tags := ["infrastructure", "electricity", "zimbabwe", "state_capacity"],
    indicator := "EG.ELC.ACCS.ZS",
    indicator_name := "Access to electricity (% of population)",
    comparison_country := "ZW",
    higher_is_better := true,
    decimals := 1,
    source_name := "World Bank WDI",
    fallback := [("CA", ("2023", dec10 1000 1)), ("ZW", ("2023", dec10 620 1))] },
  { id := "F106",
    category := "Information access & skill compounding",
    tags := ["information_access", "infrastructure", "zimbabwe"],
    indicator := "IT.NET.USER.ZS",
    indicator_name := "Individuals using the Internet (% of population)",
    comparison_country := "ZW",
    higher_is_better := true,
    decimals := 1,
    source_name := "World Bank WDI",
    fallback := [("CA", ("2023", dec10 940 1)), ("ZW", ("2023", dec10 384 1))] },
  { id := "F107",
    category := "Banking and financial inclusion (everyone can hold an account, no cash-only trap)",
    tags := ["banking", "financial_inclusion", "zimbabwe", "low_trust"],
    indicator := "FX.OWN.TOTL.ZS",
    indicator_name := "Account ownership at a financial institution or with a mobile-money-service provider (% age 15+)",
    comparison_country := "ZW",
    higher_is_better := true,
    decimals := 1,
    source_name := "World Bank Global Findex via WDI",
    fallback := [("CA", ("2024", dec10 984 1)), ("ZW", ("2024", dec10 495 1))] },
  { id := "F108",
    category := "Currency, capital, and financial system",
    tags := ["inflation", "currency", "macrostability"],
    indicator := "FP.CPI.TOTL.ZG",
    indicator_name := "Inflation, consumer prices (annual %)",
    comparison_country := "AR",
    higher_is_better := false,
    decimals := 1,
    source_name := "World Bank WDI",
    fallback := [("CA", ("2024", dec10 24 1)), ("AR", ("2024", dec10 2199 1))] },
  { id := "F109",
    category := "State capacity & predictability",
    tags := ["state_capacity", "us_risk", "inequality"],
    indicator := "SI.POV.GINI",
    indicator_name := "Gini index",
    comparison_country := "US",
    higher_is_better := false,
    decimals := 1,
    source_name := "World Bank WDI",
    fallback := [("CA", ("2021", dec10 311 1)), ("US", ("2023", dec10 418 1))] }]

/-- The merged bank `list(POLICY_FACTS) + list(METRIC_FACTS)` that
`_select_blueprints` builds as `all_facts`. -/
def all_facts : List Blueprint :=
  POLICY_FACTS.map Blueprint.policy ++ METRIC_FACTS.map Blueprint.metric

/-! ## canada_fact_bank.py: selection -/

/-- Function `_rotate` of canada_fact_bank.py: `items[idx:] + items[:idx]`
with `idx = seed % len(items)` (and `[]` for an empty list). -/
def _rotate {α : Type} (items : List α) (seed : Int) : List α :=
  if items.isEmpty then []
  else
    let idx := (seed % (items.length : Int)).toNat
    items.drop idx ++ items.take idx

/-- The `"categories"`/`"comparison_label"`/`"comparison_tags"` dict that
`choose_daily_focus` returns. -/
structure DailyFocus where
  categories : List String
  comparison_label : String
  comparison_tags : List String
deriving DecidableEq, Repr

/-- Default used to model in-range Python list indexing via `List.getD`. -/
def defaultProfile : ComparisonProfile := { label := "", tags := [] }

/-- Function `choose_daily_focus` of canada_fact_bank.py, including its
collision-avoidance adjustment of the second and third category index.
List indexing (always in range here) is modelled by `List.getD`. -/
def choose_daily_focus (day_of_year : Int) : DailyFocus :=
  let n_cat : Int := (CATEGORIES.length : Int)
  let i := day_of_year % n_cat
  let j0 := (day_of_year + 7) % n_cat
  let j := if j0 = i then (j0 + 1) % n_cat else j0
  let k0 := (day_of_year + 14) % n_cat
  let k :=
    if k0 = i ∨ k0 = j then
      let k1 := (k0 + 1) % n_cat
      if k1 = i ∨ k1 = j then (k1 + 1) % n_cat else k1
    else k0
  let profile := COMPARISON_PROFILES.getD ((day_of_year % (COMPARISON_PROFILES.length : Int)).toNat) defaultProfile
  { categories := [CATEGORIES.getD i.toNat "", CATEGORIES.getD j.toNat "", CATEGORIES.getD k.toNat ""],
    comparison_label := profile.label,
    comparison_tags := profile.tags }

/-- The inner closure `add_from_pool` of `_select_blueprints`: walk the
(already rotated) pool, skip facts whose id is already selected, append the
rest, and stop as soon as `desired` many facts are selected. `selected_ids`
is the id set of `selected` (the two are updated in lockstep in the source),
so the membership test reads `selected.map Blueprint.fact_id`. -/
def add_from_pool : List Blueprint → Nat → List Blueprint → List Blueprint
  | [], _, selected => selected
  | fact :: rest, desired, selected =>
    if fact.fact_id ∈ selected.map Blueprint.fact_id then
      add_from_pool rest desired selected
    else if desired ≤ selected.length + 1 then selected ++ [fact]
    else add_from_pool rest desired (selected ++ [fact])

/-- Function `_select_blueprints` of canada_fact_bank.py: 4 from the focus
categories (seed `day_of_year`), up to 7 total from the comparison tags
(seed `day_of_year + 5`), then fill to `target_count` from the full bank
(seed `day_of_year + 11`). The source's default `target_count=9` is passed
explicitly by `build_daily_fact_pack`. -/
def _select_blueprints (day_of_year : Int) (focus_categories : List String)
    (comparison_tags : List String) (target_count : Nat) : List Blueprint :=
  let by_category := all_facts.filter (fun f => focus_categories.contains f.category)
  let by_comparison := all_facts.filter (fun f => f.tags.any (fun t => comparison_tags.contains t))
  let s1 := add_from_pool (_rotate by_category day_of_year) 4 []
  let s2 := add_from_pool (_rotate by_comparison (day_of_year + 5)) 7 s1
  add_from_pool (_rotate all_facts (day_of_year + 11)) target_count s2

/-! ## canada_fact_bank.py: resolution (network oracle and fallback) -/

/-- Outcome of `_fetch_world_bank_latest(indicator, countries)`: `none` when
the call raises one of `URLError`, `ValueError`, `TimeoutError` (the
exceptions `_resolve_metric_fact` catches), `some m` when it returns the
latest-value dict `m` (country code to (year, value)). -/
abbrev WBFetch := String → List String → Option (List (String × String × ℚ))

/-- Helper shared with `_resolve_metric_fact`: function `_format_value` of
canada_fact_bank.py. -/
def _format_value (value : ℚ) (decimals : Nat) (is_percent : Bool) : String :=
  let num := formatFixed value decimals
  if is_percent then num ++ "%" else num

/-- The pure tail of `_resolve_metric_fact`, once the (year, value) point of
each country is known: formatting, sentence templates and the
`ResolvedFact` construction. -/
def mk_metric_resolved (template : MetricFact) (ca : String × ℚ) (cmp : String × ℚ) :
    ResolvedFact :=
  let ca_year := ca.1
  let ca_value := ca.2
  let cmp_year := cmp.1
  let cmp_value := cmp.2
  let decimals := template.decimals
  let indicator_name := template.indicator_name
  let is_percent := containsSub ("(%".toList) indicator_name.toList ||
    endsWithL ("%)".toList) indicator_name.toList
  let ca_str := _format_value ca_value decimals is_percent
  let cmp_str := _format_value cmp_value decimals is_percent
  let cmp_name := (List.lookup template.comparison_country COUNTRY_NAME).getD template.comparison_country
  let canada_fact :=
    if template.higher_is_better then
      "World Bank latest data shows Canada at " ++ ca_str ++ " (" ++ ca_year ++ ") on '" ++
        indicator_name ++ "', versus " ++ cmp_str ++ " in " ++ cmp_name ++ " (" ++ cmp_year ++ ")."
    else
      "World Bank latest data shows Canada at " ++ ca_str ++ " (" ++ ca_year ++ ") on '" ++
        indicator_name ++ "', compared with " ++ cmp_str ++ " in " ++ cmp_name ++ " (" ++ cmp_year ++ ")."
  let contrast :=
    if template.higher_is_better then
      "On this measure, Canada is higher than " ++ cmp_name ++
        ", which improves baseline predictability and long-run option value."
    else
      "On this measure, lower values are preferable; Canada is lower than " ++ cmp_name ++
        ", which reduces structural downside risk."
  let source_url := "https://data.worldbank.org/indicator/" ++ template.indicator ++
    "?locations=CA-" ++ template.comparison_country
  { fact_id := template.id,
    category := template.category,
    tags := template.tags,
    canada_fact := canada_fact,
    contrast := contrast,
    source_name := template.source_name,
    source_urls := [source_url],
    as_of := ca_year ++ "/" ++ cmp_year }

/-- Function `_resolve_metric_fact` of canada_fact_bank.py. The fetch
outcome is the oracle `fetch`; a caught exception leaves `latest = {}`.
`get_point` prefers the live value, then the hardcoded fallback, and raises
(`Except.error`) when both are missing. -/
def _resolve_metric_fact (fetch : WBFetch) (template : MetricFact) :
    Except String ResolvedFact :=
  let countries := ["CA", template.comparison_country]
  let latest := (fetch template.indicator countries).getD []
  let get_point := fun (country_code : String) =>
    match List.lookup country_code latest with
    | some point => Except.ok point
    | none =>
      match List.lookup country_code template.fallback with
      | some point => Except.ok point
      | none => Except.error ("Missing both live and fallback value for " ++
          template.id ++ " (" ++ country_code ++ ")")
  do
    let ca ← get_point ("CA")
    let cmp ← get_point template.comparison_country
    pure (mk_metric_resolved template ca cmp)

/-- The `ResolvedFact(...)` construction `build_daily_fact_pack` performs for
a policy (non-`indicator`) record. -/
def policy_resolved (p : PolicyFact) : ResolvedFact :=
  { fact_id := p.id,
    category := p.category,
    tags := p.tags,
    canada_fact := p.canada_fact,
    contrast := p.contrast,
    source_name := p.source_name,
    source_urls := p.source_urls,
    as_of := p.as_of }

/-- The resolution loop of `build_daily_fact_pack`: each blueprint with an
`indicator` key goes through `_resolve_metric_fact`, the rest become
`ResolvedFact` records directly; a raise aborts the run. -/
def resolve_all (fetch : WBFetch) : List Blueprint → Except String (List ResolvedFact)
  | [] => Except.ok []
  | item :: rest => do
    let r ← (match item with
      | .metric m => _resolve_metric_fact fetch m
      | .policy p => Except.ok (policy_resolved p))
    let rs ← resolve_all fetch rest
    pure (r :: rs)

/-- Function `build_daily_fact_pack` of canada_fact_bank.py. -/
def build_daily_fact_pack (fetch : WBFetch) (day_of_year : Int)
    (focus_categories comparison_tags : List String) : Except String (List ResolvedFact) :=
  resolve_all fetch (_select_blueprints day_of_year focus_categories comparison_tags 9)

/-! ## canada_fact_bank.py: rendering -/

/-- Python whitespace test for `str.strip` / `str.split` / regex `\s`
(ASCII whitespace; the program's own text is ASCII). -/
def isPySpace (c : Char) : Bool :=
  c = ' ' || c = '\t' || c = '\n' || c = '\r' || c = Char.ofNat 11 || c = Char.ofNat 12

/-- Model of Python `str.strip()` on a character list. -/
def pStrip (cs : List Char) : List Char :=
  ((cs.dropWhile isPySpace).reverse.dropWhile isPySpace).reverse

/-- Model of Python `str.strip()` on a `String`. -/
def pStripS (s : String) : String := String.mk (pStrip s.data)

/-- Function `render_focus_and_evidence` of canada_fact_bank.py: the fixed
header lines, five lines plus a blank per fact, and the fixed evidence-use
rules, joined with newlines and stripped. Indexing `focus_categories[0..2]`
raises `IndexError` on a short list, modelled by `none`. -/
def render_focus_and_evidence (focus_categories : List String)
    (comparison_label : String) (fact_pack : List ResolvedFact) : Option String :=
  match focus_categories.get? 0, focus_categories.get? 1, focus_categories.get? 2 with
  | some c0, some c1, some c2 =>
    let header := [
      "Today's focus (you MUST use this to make the daily output meaningfully different):",
      "- Focus categories: (1) " ++ c0 ++ " (2) " ++ c1 ++ " (3) " ++ c2,
      "- Contrast emphasis: " ++ comparison_label ++ ".",
      "",
      "Verified evidence pack for today (use these IDs for factual claims):",
      "- You may paraphrase, but do not introduce new numeric/ranking claims not grounded in these facts.",
      ""]
    let factLines := fact_pack.flatMap (fun fact => [
      fact.fact_id ++ " | Category: " ++ fact.category,
      "Canada advantage: " ++ fact.canada_fact,
      "Contrast context: " ++ fact.contrast,
      "Source(s): " ++ String.intercalate " ; " fact.source_urls,
      "As-of: " ++ fact.as_of,
      ""])
    let rules := [
      "Evidence-use rules (non-negotiable):",
      "- Use at least 4 different fact IDs from the pack.",
      "- Every numeric, ranking, policy, or country-specific claim must cite a fact ID at sentence end, e.g. [F003].",
      "- If a claim is not in the pack, omit it.",
      "- Include a final section titled **Sources (Fact IDs):** mapping each used ID to URL(s)."]
    some (pStripS (String.intercalate "\n" (header ++ factLines ++ rules)))
  | _, _, _ => none

/-- One full daily run of canada_fact_bank: build the pack for the day, then
render it (the composition the mailer performs for a given day and focus). -/
def daily_output (fetch : WBFetch) (day_of_year : Int)
    (focus_categories comparison_tags : List String) (comparison_label : String) :
    Except String (Option String) :=
  (build_daily_fact_pack fetch day_of_year focus_categories comparison_tags).map
    (fun pack => render_focus_and_evidence focus_categories comparison_label pack)

/-! ## baseline_mailer.py: character-level helpers -/

/-- Word splitting, model of Python `str.split()` (split on whitespace runs,
dropping empty tokens); `acc` holds the current word reversed. -/
def wordsAux : List Char → List Char → List (List Char)
  | [], acc => if acc.isEmpty then [] else [acc.reverse]
  | c :: rest, acc =>
    if isPySpace c then
      if acc.isEmpty then wordsAux rest [] else acc.reverse :: wordsAux rest []
    else wordsAux rest (c :: acc)

/-- Model of Python `str.split()` on a character list. -/
def pWords (cs : List Char) : List (List Char) := wordsAux cs []

/-- Model of Python `sep.join(parts)`. -/
def joinSep (sep : List Char) : List (List Char) → List Char
  | [] => []
  | [x] => x
  | x :: xs => x ++ sep ++ joinSep sep xs

/-- Model of Python `str.split('\n')` (keeps empty parts); `acc` holds the
current part reversed. -/
def splitNlAux : List Char → List Char → List (List Char)
  | [], acc => [acc.reverse]
  | c :: rest, acc =>
    if c = '\n' then acc.reverse :: splitNlAux rest []
    else splitNlAux rest (c :: acc)

/-- Model of Python `str.split('\n')`. -/
def splitNl (cs : List Char) : List (List Char) := splitNlAux cs []

/-- Index of the last `'\n'` in a list, if any. -/
def lastNlIdx : List Char → Option Nat
  | [] => none
  | c :: rest =>
    match lastNlIdx rest with
    | some i => some (i + 1)
    | none => if c = '\n' then some 0 else none

/-- Model of `re.split(r'\n\s*\n', text)`: a separator match starts at a
newline and, greedily, ends at the last newline of the maximal whitespace
run that follows it (so the run must contain a second newline); scanning
resumes after the match. `acc` holds the current chunk reversed. -/
def splitParas : List Char → List Char → List (List Char)
  | [], acc => [acc.reverse]
  | c :: rest, acc =>
    if c = '\n' then
      match lastNlIdx (rest.takeWhile isPySpace) with
      | some k => acc.reverse :: splitParas (rest.drop (k + 1)) []
      | none => splitParas rest (c :: acc)
    else splitParas rest (c :: acc)
termination_by cs _ => cs.length
decreasing_by
  · simp [List.length_drop]
    omega
  · simp
  · simp

/-- Model of Python `line.count('**')` (non-overlapping, left to right). -/
def countStarStar : List Char → Nat
  | '*' :: '*' :: rest => 1 + countStarStar rest
  | _ :: rest => countStarStar rest
  | [] => 0

/-- Model of Python `str.replace(c, r)` for a single-character needle. -/
def replaceChar (c : Char) (r : List Char) : List Char → List Char
  | [] => []
  | x :: rest => if x = c then r ++ replaceChar c r rest else x :: replaceChar c r rest

/-- The escaping chain `.replace('&', '&amp;').replace('<', '&lt;').replace('>', '&gt;')`
applied in that order, as in both `_heading_line_to_html` and `reflection_to_html`. -/
def escapeHtml (s : List Char) : List Char :=
  replaceChar '>' ("&gt;".toList)
    (replaceChar '<' ("&lt;".toList)
      (replaceChar '&' ("&amp;".toList) s))

/-- Character-wise description of the escaping chain (used to state that
every `&`, `<`, `>` is rendered as its entity and all else is unchanged). -/
def escChar (c : Char) : List Char :=
  if c = '&' then "&amp;".toList
  else if c = '<' then "&lt;".toList
  else if c = '>' then "&gt;".toList
  else [c]

/-- Scan for the closing `**` of `re.sub(r'\*\*(.+?)\*\*', ...)`, after the
first (mandatory) content character: offset of the earliest `**` reachable
without crossing a newline (`.` does not match `\n`). -/
def findCloseFrom : List Char → Option Nat
  | [] => none
  | [_] => none
  | c :: d :: rest =>
    if c = '*' ∧ d = '*' then some 0
    else if c = '\n' then none else (findCloseFrom (d :: rest)).map (· + 1)

/-- Offset of the closing `**` after a `**` opener: the lazy group `(.+?)`
takes at least one non-newline character, then the earliest `**` ends the
match. `some i` means the content is the first `i` characters. -/
def findCloseIdx : List Char → Option Nat
  | c :: rest => if c = '\n' then none else (findCloseFrom rest).map (· + 1)
  | [] => none

/-- Model of `re.sub(r'\*\*(.+?)\*\*', r'<strong>\1</strong>', s)`: leftmost
match, lazy content of at least one non-newline character, scanning resumes
after each match; replacement text is not rescanned. -/
def boldSub (s : List Char) : List Char :=
  match s with
  | [] => []
  | [c] => [c]
  | c :: d :: rest =>
    if c = '*' ∧ d = '*' then
      match findCloseIdx rest with
      | some i =>
        ("<strong>".toList) ++ rest.take i ++ ("</strong>".toList) ++ boldSub (rest.drop (i + 2))
      | none => c :: boldSub (d :: rest)
    else c :: boldSub (d :: rest)
termination_by s.length
decreasing_by
  · simp only [List.length_drop, List.length_cons]
    omega
  · simp only [List.length_cons]
    omega
  · simp only [List.length_cons]
    omega

/-! ## baseline_mailer.py: tables and daily focus -/

/-- Module-level table `_CATEGORIES` of baseline_mailer.py (its tenth entry
carries the source's mojibake bytes for an en dash, kept verbatim). -/
def _CATEGORIES : List String := [
  "Legal & institutional protections",
  "Currency, capital, and financial system",
  "Labour mobility & credential leverage",
  "Information access & skill compounding",
  "Infrastructure & time efficiency",
  "Optionality under failure (second chances)",
  "State capacity & predictability",
  "Language and geographic optionality (e.g. English + ability to move)",
  "Language: English/French as global languages (portability of skills, no language trap)",
  "Educational opportunities (public Kâ€“12, affordable higher ed, credentials that transfer globally)",
  "Healthcare access (universal coverage, no medical bankruptcy as in the US)",
  "Political stability and peaceful transfers of power",
  "Banking and financial inclusion (everyone can hold an account, no cash-only trap)",
  "Research, libraries, and public knowledge (open access, no censorship of curricula)",
  "Labour standards (minimum wage, overtime, safety, recourse for wage theft)",
  "Property rights and contract enforcement (predictable courts, no arbitrary expropriation)",
  "Immigration and naturalization pathways (ability to naturalize, sponsor family)",
  "Press freedom and open information (no state media monopoly, access to global news)",
  "Internal mobility (freedom to move between provinces without permits or residency locks)",
  "Pension and social insurance (CPP, EI, predictable retirement floor)",
  "Clean water, sanitation, and reliable basic infrastructure",
  "Consumer and product safety regulation (food, drugs, standards)",
  "Environmental quality and public goods (air, water, parks as baseline)"]

/-- Module-level table `_COMPARISON_FOCUSES` of baseline_mailer.py. -/
def _COMPARISON_FOCUSES : List String := [
  "Zimbabwe or another low-trust economy (e.g. weak institutions, currency risk)",
  "Japan or similar: language trap, monolingual residents who cannot easily leave",
  "Wealthy but rigid societies where second chances are rare (e.g. credential lock-in, stigma)",
  "Countries where credentials or qualifications do not transfer across borders",
  "Places with severe visa or mobility limits even for skilled workers",
  "Strong economy with less optionality (e.g. no bankruptcy discharge, no retraining support)",
  "States with low predictability (policy swings, expropriation risk)",
  "Limited information access or skill-compounding (censorship, no libraries, expensive data)"]

/-- The focus string `get_todays_focus` returns, given the two category
strings and the comparison string its f-string interpolates. -/
def mailer_focus_text (cat1 cat2 comp : String) : String :=
  "Today's focus (you MUST use this so the topic is different from generic runs):\n" ++
  "- Focus on exactly these 2 categories: (1) " ++ cat1 ++ " (2) " ++ cat2 ++ ".\n" ++
  "- For contrast / what to be grateful for, emphasize comparison with: " ++ comp ++ "."

/-- Function `get_todays_focus` of baseline_mailer.py. The current UTC
day-of-year (`datetime.utcnow().timetuple().tm_yday`) is ambient input,
passed here as the parameter `day_of_year`. -/
def get_todays_focus (day_of_year : Int) : String :=
  let n_cat : Int := (_CATEGORIES.length : Int)
  let n_comp : Int := (_COMPARISON_FOCUSES.length : Int)
  let i := day_of_year % n_cat
  let j0 := (day_of_year + 7) % n_cat
  let j := if j0 = i then (j0 + 1) % n_cat else j0
  let cat1 := _CATEGORIES.getD i.toNat ""
  let cat2 := _CATEGORIES.getD j.toNat ""
  let comp := _COMPARISON_FOCUSES.getD ((day_of_year % n_comp).toNat) ""
  mailer_focus_text cat1 cat2 comp

/-! ## baseline_mailer.py: word-count truncation -/

/-- The truncation loop of `generate_reflection`: walk the paragraphs (as
split on blank lines), strip each, skip empty ones, keep a paragraph while
the running word count stays within 400; if the first kept paragraph alone
exceeds 400 words, keep its first 400 words (space-joined) and stop;
otherwise stop at the first paragraph that would overflow. -/
def truncLoop : List (List Char) → Nat → List (List Char)
  | [], _ => []
  | p :: rest, word_count =>
    let q := pStrip p
    if q.isEmpty then truncLoop rest word_count
    else
      let n := (pWords q).length
      if word_count + n ≤ 400 then q :: truncLoop rest (word_count + n)
      else if word_count = 0 then [joinSep [' '] ((pWords q).take 400)]
      else []

/-- The word-count truncation step of `generate_reflection` (the code after
the API call): split the reflection on blank lines, run the truncation
loop, and rejoin the kept paragraphs with blank lines. -/
def truncate_reflection (reflection : String) : String :=
  String.mk (joinSep ['\n', '\n'] (truncLoop (splitParas reflection.data []) 0))

/-! ## baseline_mailer.py: markdown-subset-to-HTML renderer -/

/-- Word-constituent test for the regex `\b` boundary (ASCII `\w`). -/
def isWordChar (c : Char) : Bool := c.isAlphanum || c = '_'

/-- Lower-casing for the case-insensitive (`re.I`) label match. -/
def lowerL (l : List Char) : List Char := l.map Char.toLower

/-- The heading-label alternation of `_is_heading_line`'s regex. -/
def HEADING_LABELS : List String := [
  "Advantage",
  "Clear Advantage",
  "Structural Importance",
  "Expansion of Future",
  "Contrast with",
  "Contrast / What to be grateful for",
  "Fact to retain"]

/-- Model of `re.match(r'^\*\*(Advantage|...)\b', line, re.I)` as a truth
value: the line starts (case-insensitively) with `**` plus one of the
labels, followed by a non-word character or the end of the line. -/
def matchesHeadingLabel (l : List Char) : Bool :=
  HEADING_LABELS.any (fun lab =>
    let pat := '*' :: '*' :: lab.toList
    startsWithL (lowerL pat) (lowerL l) &&
      (match l.drop pat.length with
       | [] => true
       | d :: _ => !isWordChar d))

/-- Function `_is_heading_line` of baseline_mailer.py. -/
def _is_heading_line (line : List Char) : Bool :=
  let l := pStrip line
  if l.isEmpty then false
  else if startsWithL ("### ".toList) l then true
  else if startsWithL ("**".toList) l && endsWithL ("**".toList) l && (countStarStar l == 2) then
    true
  else matchesHeadingLabel l

/-- The `<h3>` opening tag emitted by `_heading_line_to_html`. -/
def H3_OPEN : List Char :=
  ("<h3 style=\"margin: 1.5em 0 0.6em 0; font-size: 1.1em; font-weight: 600;\">").toList

/-- The `</h3>` closing tag. -/
def H3_CLOSE : List Char := ("</h3>").toList

/-- The `<p>` opening tag emitted for paragraphs. -/
def P_OPEN : List Char := ("<p style=\"margin: 0 0 1.25em 0;\">").toList

/-- The `</p>` closing tag. -/
def P_CLOSE : List Char := ("</p>").toList

/-- Function `_heading_line_to_html` of baseline_mailer.py. The anchored
substitution `re.sub(r'^\*\*(.+)\*\*$', r'\1', raw)` rewrites `raw` to its
middle exactly when `raw` is `**`, at least one character, then `**` (so
length at least 5 with that prefix and suffix), and leaves it unchanged
otherwise. -/
def _heading_line_to_html (line : List Char) : List Char :=
  let raw := pStrip line
  let content :=
    if startsWithL ("### ".toList) raw then pStrip (raw.drop 4)
    else if decide (5 ≤ raw.length) && startsWithL ("**".toList) raw &&
        endsWithL ("**".toList) raw then
      (raw.drop 2).take (raw.length - 4)
    else raw
  H3_OPEN ++ escapeHtml content ++ H3_CLOSE

/-- The paragraph rendering both branches of `reflection_to_html` share:
escape, bold-to-strong substitution, newline-to-`<br>`, and the `<p>` wrap. -/
def paragraphHtml (text : List Char) : List Char :=
  P_OPEN ++ replaceChar '\n' (("<br>").toList) (boldSub (escapeHtml text)) ++ P_CLOSE

/-- The `html_parts` entries one block of `reflection_to_html` contributes:
none for a blank block, an `<h3>` (plus a `<p>` with the remaining lines,
when any) for a block whose first non-empty line is a heading, one `<p>`
otherwise. -/
def blockParts (block : List Char) : List (List Char) :=
  let b := pStrip block
  if b.isEmpty then []
  else
    let lines := ((splitNl b).map pStrip).filter (fun ln => !ln.isEmpty)
    match lines with
    | [] => []
    | l0 :: restLines =>
      if _is_heading_line l0 then
        let rest := joinSep ['\n'] restLines
        if rest.isEmpty then [_heading_line_to_html l0]
        else [_heading_line_to_html l0, paragraphHtml rest]
      else [paragraphHtml b]

/-- Function `reflection_to_html` of baseline_mailer.py: split on blank
lines, render each block's parts, and join all parts with newlines. -/
def reflection_to_html (reflection : String) : String :=
  String.mk (joinSep ['\n'] ((splitParas reflection.data []).flatMap blockParts))

/-! ## Spec-side definitions (compared against the code-side embedding) -/

/-- Whitespace-separated word count of a string. -/
def wordCountS (s : String) : Nat := (pWords s.data).length

/-- Total word count of a list of paragraphs. -/
def sumWords (ps : List (List Char)) : Nat :=
  (ps.map (fun p => (pWords p).length)).sum

/-- Spec wording for C6: "the text's non-empty paragraphs" (split on blank
lines, stripped, empties dropped). -/
def spec_nonempty_paragraphs (reflection : String) : List (List Char) :=
  ((splitParas reflection.data []).map pStrip).filter (fun p => !p.isEmpty)

/-- Spec wording for C6: the prefix of `ps` kept while the cumulative word
count stays within `budget` (the maximal such prefix, since word counts are
nonnegative). -/
def spec_take_within : List (List Char) → Nat → List (List Char)
  | [], _ => []
  | p :: rest, budget =>
    if (pWords p).length ≤ budget then
      p :: spec_take_within rest (budget - (pWords p).length)
    else []

/-- Spec wording for C8: the heading test as one disjunction (a `'### '`
line, a bold-only `'**...**'` line, or a known `'**Advantage'`-style label),
for a line already stripped and non-empty. -/
def spec_heading_line (l : List Char) : Bool :=
  startsWithL ("### ".toList) l ||
  (startsWithL ("**".toList) l && endsWithL ("**".toList) l && (countStarStar l == 2)) ||
  matchesHeadingLabel l

/-- Spec wording for C8 (as amended): the marker stripping a heading line
actually receives: a `'### '` prefix is dropped (and the rest stripped); a
line that is entirely `**`-wrapped (length at least 5) loses the wrapping
asterisks; any other heading line is kept verbatim. -/
def spec_strip_markers (l : List Char) : List Char :=
  if startsWithL ("### ".toList) l then pStrip (l.drop 4)
  else if decide (5 ≤ l.length) && startsWithL ("**".toList) l && endsWithL ("**".toList) l then
    (l.drop 2).take (l.length - 4)
  else l

/-- Spec wording for C8 (as amended): the HTML parts one block contributes.
A block's first non-empty stripped line decides its shape: a heading line
becomes an `<h3>` around the escaped, marker-stripped line (with any
remaining lines as one `<p>`); any other block becomes one `<p>` whose
escaped text has `**`-spans as `<strong>` and newlines as `<br>`. -/
def spec_block_html (block : List Char) : List (List Char) :=
  let lines := ((splitNl (pStrip block)).map pStrip).filter (fun ln => !ln.isEmpty)
  match lines with
  | [] => []
  | l0 :: restLines =>
    if spec_heading_line l0 then
      (H3_OPEN ++ escapeHtml (spec_strip_markers l0) ++ H3_CLOSE) ::
        (if restLines.isEmpty then []
         else [P_OPEN ++
           replaceChar '\n' (("<br>").toList) (boldSub (escapeHtml (joinSep ['\n'] restLines))) ++
           P_CLOSE])
    else [P_OPEN ++
      replaceChar '\n' (("<br>").toList) (boldSub (escapeHtml (pStrip block))) ++ P_CLOSE]

/-! ## HTML output safety (C10): scanners and the safety predicate -/

/-- The complete HTML tag strings the renderer itself emits. -/
def ALLOWED_TAGS : List (List Char) :=
  [H3_OPEN, H3_CLOSE, P_OPEN, P_CLOSE, ("<br>").toList, ("<strong>").toList, ("</strong>").toList]

/-- The three escape entities the renderer emits. -/
def HTML_ENTITIES : List (List Char) :=
  [("&amp;").toList, ("&lt;").toList, ("&gt;").toList]

/-- The allowed tags with their leading `<` removed (what may follow a `<`). -/
def TAG_RESTS : List (List Char) := ALLOWED_TAGS.map (List.drop 1)

/-- The entities with their leading `&` removed (what may follow a `&`). -/
def ENT_RESTS : List (List Char) := HTML_ENTITIES.map (List.drop 1)

/-- Length of the first pattern in `pats` that starts `s`, if any. -/
def matchAtomLen (pats : List (List Char)) (s : List Char) : Option Nat :=
  match pats with
  | [] => none
  | p :: rest => if startsWithL p s then some p.length else matchAtomLen rest s

/-- Scanner accepting exactly the strings in which every `<` opens one of the
renderer's own tags (which is then skipped whole), every `&` starts one of
the three escape entities, and no raw `>` occurs outside those tags. -/
def htmlSafeScan : List Char → Bool
  | [] => true
  | c :: rest =>
    if c = '<' then
      match matchAtomLen TAG_RESTS rest with
      | some k => htmlSafeScan (rest.drop k)
      | none => false
    else if c = '&' then
      match matchAtomLen ENT_RESTS rest with
      | some k => htmlSafeScan (rest.drop k)
      | none => false
    else if c = '>' then false
    else htmlSafeScan rest
termination_by s => s.length
decreasing_by
  · simp [List.length_drop]
    omega
  · simp [List.length_drop]
    omega
  · simp

/-- Scanner accepting the strings in which every `&` starts one of the three
escape entities (no tag handling: used for escaped text before tags exist). -/
def ampScan : List Char → Bool
  | [] => true
  | c :: rest =>
    if c = '&' then (matchAtomLen ENT_RESTS rest).isSome && ampScan rest
    else ampScan rest

/-- Structural safety: a string is a concatenation of renderer tags, escape
entities, and plain characters other than `<`, `>`, `&`. -/
inductive HtmlSafe : List Char → Prop where
  | nil : HtmlSafe []
  | chr {c : Char} {rest : List Char} : c ≠ '<' → c ≠ '>' → c ≠ '&' →
      HtmlSafe rest → HtmlSafe (c :: rest)
  | ent {e : List Char} {rest : List Char} : e ∈ HTML_ENTITIES →
      HtmlSafe rest → HtmlSafe (e ++ rest)
  | tag {t : List Char} {rest : List Char} : t ∈ ALLOWED_TAGS →
      HtmlSafe rest → HtmlSafe (t ++ rest)

/-! # Theorems -/

/-! ## Selection lemmas (`add_from_pool`, `_rotate`, `_select_blueprints`) -/

theorem add_from_pool_append (pool : List Blueprint) (d : Nat) (sel : List Blueprint) :
    ∃ t, add_from_pool pool d sel = sel ++ t := by
  induction pool generalizing sel with
  | nil => exact ⟨[], by simp [add_from_pool]⟩
  | cons f rest ih =>
    rw [add_from_pool]
    by_cases hdup : f.fact_id ∈ sel.map Blueprint.fact_id
    · rw [if_pos hdup]
      exact ih sel
    · rw [if_neg hdup]
      by_cases hstop : d ≤ sel.length + 1
      · rw [if_pos hstop]
        exact ⟨[f], rfl⟩
      · rw [if_neg hstop]
        obtain ⟨t, ht⟩ := ih (sel ++ [f])
        exact ⟨f :: t, by rw [ht, List.append_assoc]; rfl⟩

theorem add_from_pool_length_le (pool : List Blueprint) (d : Nat) (sel : List Blueprint)
    (h : sel.length < d) : (add_from_pool pool d sel).length ≤ d := by
  induction pool generalizing sel with
  | nil => simpa [add_from_pool] using Nat.le_of_lt h
  | cons f rest ih =>
    rw [add_from_pool]
    by_cases hdup : f.fact_id ∈ sel.map Blueprint.fact_id
    · rw [if_pos hdup]
      exact ih sel h
    · rw [if_neg hdup]
      by_cases hstop : d ≤ sel.length + 1
      · rw [if_pos hstop]
        simp
        omega
      · rw [if_neg hstop]
        exact ih (sel ++ [f]) (by simp; omega)

theorem add_from_pool_length_eq (pool : List Blueprint) (d : Nat) (sel : List Blueprint)
    (hlt : sel.length < d)
    (hnodup : (pool.map Blueprint.fact_id).Nodup)
    (hfresh : d - sel.length ≤
      (pool.filter (fun g => decide (g.fact_id ∉ sel.map Blueprint.fact_id))).length) :
    (add_from_pool pool d sel).length = d := by
  induction pool generalizing sel with
  | nil =>
    simp at hfresh
    omega
  | cons f rest ih =>
    simp only [List.map_cons, List.nodup_cons] at hnodup
    rw [add_from_pool]
    by_cases hdup : f.fact_id ∈ sel.map Blueprint.fact_id
    · rw [if_pos hdup]
      refine ih sel hlt hnodup.2 ?_
      rwa [List.filter_cons, if_neg (by simp [hdup])] at hfresh
    · rw [if_neg hdup]
      rw [List.filter_cons, if_pos (by simp [hdup])] at hfresh
      by_cases hstop : d ≤ sel.length + 1
      · rw [if_pos hstop]
        simp
        omega
      · rw [if_neg hstop]
        refine ih (sel ++ [f]) (by simp; omega) hnodup.2 ?_
        have hflt : rest.filter (fun g => decide (g.fact_id ∉ (sel ++ [f]).map Blueprint.fact_id))
            = rest.filter (fun g => decide (g.fact_id ∉ sel.map Blueprint.fact_id)) := by
          apply List.filter_congr
          intro g hg
          have hne : g.fact_id ≠ f.fact_id := by
            intro he
            exact hnodup.1 (he ▸ List.mem_map_of_mem Blueprint.fact_id hg)
          simp [hne]
        rw [hflt]
        simp only [List.length_cons] at hfresh
        simp only [List.length_append, List.length_cons, List.length_nil]
        omega

theorem add_from_pool_mem (pool : List Blueprint) (d : Nat) (sel : List Blueprint)
    (x : Blueprint) (hx : x ∈ add_from_pool pool d sel) : x ∈ sel ∨ x ∈ pool := by
  induction pool generalizing sel with
  | nil =>
    simp [add_from_pool] at hx
    exact Or.inl hx
  | cons f rest ih =>
    rw [add_from_pool] at hx
    by_cases hdup : f.fact_id ∈ sel.map Blueprint.fact_id
    · rw [if_pos hdup] at hx
      rcases ih sel hx with h | h
      · exact Or.inl h
      · exact Or.inr (List.mem_cons_of_mem f h)
    · rw [if_neg hdup] at hx
      by_cases hstop : d ≤ sel.length + 1
      · rw [if_pos hstop] at hx
        rcases List.mem_append.1 hx with h | h
        · exact Or.inl h
        · simp at h
          exact Or.inr (h ▸ List.mem_cons_self f rest)
      · rw [if_neg hstop] at hx
        rcases ih (sel ++ [f]) hx with h | h
        · rcases List.mem_append.1 h with h' | h'
          · exact Or.inl h'
          · simp at h'
            exact Or.inr (h' ▸ List.mem_cons_self f rest)
        · exact Or.inr (List.mem_cons_of_mem f h)

theorem add_from_pool_nodup (pool : List Blueprint) (d : Nat) (sel : List Blueprint)
    (h : (sel.map Blueprint.fact_id).Nodup) :
    ((add_from_pool pool d sel).map Blueprint.fact_id).Nodup := by
  induction pool generalizing sel with
  | nil => simpa [add_from_pool] using h
  | cons f rest ih =>
    rw [add_from_pool]
    by_cases hdup : f.fact_id ∈ sel.map Blueprint.fact_id
    · rw [if_pos hdup]
      exact ih sel h
    · rw [if_neg hdup]
      have happ : ((sel ++ [f]).map Blueprint.fact_id).Nodup := by
        simp [List.nodup_append, h, hdup]
      by_cases hstop : d ≤ sel.length + 1
      · rw [if_pos hstop]
        exact happ
      · rw [if_neg hstop]
        exact ih (sel ++ [f]) happ

theorem rotate_perm {α : Type} (items : List α) (seed : Int) :
    (_rotate items seed).Perm items := by
  unfold _rotate
  by_cases h : items.isEmpty
  · rw [if_pos h]
    simp [List.isEmpty_iff] at h
    simp [h]
  · rw [if_neg h]
    exact List.perm_append_comm.trans (by rw [List.take_append_drop])

theorem all_facts_ids_nodup : (all_facts.map Blueprint.fact_id).Nodup := by decide

theorem all_facts_length : all_facts.length = 24 := by decide

theorem select_blueprints_sound (day : Int) (fc ct : List String) :
    (_select_blueprints day fc ct 9).length = 9 ∧
    ((_select_blueprints day fc ct 9).map Blueprint.fact_id).Nodup ∧
    ∀ x ∈ _select_blueprints day fc ct 9, x ∈ all_facts := by
  have hsel : _select_blueprints day fc ct 9 =
      add_from_pool (_rotate all_facts (day + 11)) 9
        (add_from_pool (_rotate (all_facts.filter
            (fun f => f.tags.any (fun t => ct.contains t))) (day + 5)) 7
          (add_from_pool (_rotate (all_facts.filter
            (fun f => fc.contains f.category)) day) 4 [])) := rfl
  set pool1 := _rotate (all_facts.filter (fun f => fc.contains f.category)) day with hpool1
  set pool2 := _rotate (all_facts.filter (fun f => f.tags.any (fun t => ct.contains t)))
    (day + 5) with hpool2
  set pool3 := _rotate all_facts (day + 11) with hpool3
  set s1 := add_from_pool pool1 4 [] with hs1def
  set s2 := add_from_pool pool2 7 s1 with hs2def
  have hs1 : s1.length ≤ 4 := add_from_pool_length_le pool1 4 [] (by simp)
  have hs2 : s2.length ≤ 7 := add_from_pool_length_le pool2 7 s1 (by omega)
  have hn1 : (s1.map Blueprint.fact_id).Nodup := add_from_pool_nodup pool1 4 [] (by simp)
  have hn2 : (s2.map Blueprint.fact_id).Nodup := add_from_pool_nodup pool2 7 s1 hn1
  have hperm3 : pool3.Perm all_facts := rotate_perm all_facts (day + 11)
  have hpn : (pool3.map Blueprint.fact_id).Nodup :=
    ((hperm3.map Blueprint.fact_id).nodup_iff).2 all_facts_ids_nodup
  have hlen3 : pool3.length = 24 := by rw [hperm3.length_eq, all_facts_length]
  have hdup_le : (pool3.filter
      (fun g => decide (g.fact_id ∈ s2.map Blueprint.fact_id))).length ≤ s2.length := by
    have hnd : ((pool3.filter (fun g => decide (g.fact_id ∈ s2.map Blueprint.fact_id))).map
        Blueprint.fact_id).Nodup :=
      hpn.sublist ((List.filter_sublist pool3).map Blueprint.fact_id)
    have hsub : ((pool3.filter (fun g => decide (g.fact_id ∈ s2.map Blueprint.fact_id))).map
        Blueprint.fact_id) ⊆ s2.map Blueprint.fact_id := by
      intro y hy
      obtain ⟨g, hg, rfl⟩ := List.mem_map.1 hy
      simpa using (List.mem_filter.1 hg).2
    have hle := (hnd.subperm hsub).length_le
    simpa using hle
  have hsplit := (List.length_eq_length_filter_add
    (fun g => decide (g.fact_id ∈ s2.map Blueprint.fact_id)) (l := pool3))
  have hcompl : pool3.filter
      (fun x => !decide (x.fact_id ∈ s2.map Blueprint.fact_id))
      = pool3.filter (fun g => decide (g.fact_id ∉ s2.map Blueprint.fact_id)) := by
    apply List.filter_congr
    intro g _
    exact decide_not.symm
  have hfresh : 9 - s2.length ≤
      (pool3.filter (fun g => decide (g.fact_id ∉ s2.map Blueprint.fact_id))).length := by
    rw [← hcompl]
    omega
  have h9 : (add_from_pool pool3 9 s2).length = 9 :=
    add_from_pool_length_eq pool3 9 s2 (by omega) hpn hfresh
  refine ⟨by rw [hsel]; exact h9, by rw [hsel]; exact add_from_pool_nodup pool3 9 s2 hn2, ?_⟩
  intro x hx
  rw [hsel] at hx
  rcases add_from_pool_mem pool3 9 s2 x hx with h | h
  · rcases add_from_pool_mem pool2 7 s1 x h with h' | h'
    · rcases add_from_pool_mem pool1 4 [] x h' with h'' | h''
      · simp at h''
      · exact (List.mem_filter.1 ((rotate_perm _ day).mem_iff.1 h'')).1
    · exact (List.mem_filter.1 ((rotate_perm _ (day + 5)).mem_iff.1 h')).1
  · exact hperm3.mem_iff.1 h

/-! ## Resolution lemmas (`_resolve_metric_fact`, `resolve_all`) -/

theorem resolve_metric_ok (fetch : WBFetch) (m : MetricFact)
    (hca : (List.lookup ("CA") m.fallback).isSome = true)
    (hcmp : (List.lookup m.comparison_country m.fallback).isSome = true) :
    ∃ r, _resolve_metric_fact fetch m = Except.ok r ∧ r.fact_id = m.id := by
  obtain ⟨pca, hpca⟩ := Option.isSome_iff_exists.1 hca
  obtain ⟨pcm, hpcm⟩ := Option.isSome_iff_exists.1 hcmp
  unfold _resolve_metric_fact
  cases h1 : List.lookup ("CA") ((fetch m.indicator ["CA", m.comparison_country]).getD []) with
  | some p1 =>
    cases h2 : List.lookup m.comparison_country
        ((fetch m.indicator ["CA", m.comparison_country]).getD []) with
    | some p2 =>
      exact ⟨mk_metric_resolved m p1 p2, by simp [h1, h2, bind, Except.bind, pure, Except.pure], rfl⟩
    | none =>
      exact ⟨mk_metric_resolved m p1 pcm, by simp [h1, h2, hpcm, bind, Except.bind, pure, Except.pure], rfl⟩
  | none =>
    cases h2 : List.lookup m.comparison_country
        ((fetch m.indicator ["CA", m.comparison_country]).getD []) with
    | some p2 =>
      exact ⟨mk_metric_resolved m pca p2, by simp [h1, h2, hpca, bind, Except.bind, pure, Except.pure], rfl⟩
    | none =>
      exact ⟨mk_metric_resolved m pca pcm, by simp [h1, h2, hpca, hpcm, bind, Except.bind, pure, Except.pure], rfl⟩

theorem metric_fallback_total :
    ∀ m ∈ METRIC_FACTS, (List.lookup ("CA") m.fallback).isSome = true ∧
      (List.lookup m.comparison_country m.fallback).isSome = true := by
  decide

theorem metric_mem_bank {m : MetricFact} (h : Blueprint.metric m ∈ all_facts) :
    m ∈ METRIC_FACTS := by
  rcases List.mem_append.1 h with h' | h'
  · obtain ⟨p, _, hp⟩ := List.mem_map.1 h'
    exact absurd hp (by simp)
  · obtain ⟨m', hm', hp⟩ := List.mem_map.1 h'
    cases hp
    exact hm'

theorem resolve_all_ok (fetch : WBFetch) (bs : List Blueprint)
    (h : ∀ m : MetricFact, Blueprint.metric m ∈ bs → m ∈ METRIC_FACTS) :
    ∃ l, resolve_all fetch bs = Except.ok l ∧
      l.map ResolvedFact.fact_id = bs.map Blueprint.fact_id := by
  induction bs with
  | nil => exact ⟨[], rfl, rfl⟩
  | cons b rest ih =>
    obtain ⟨l, hl, hmap⟩ := ih (fun m hm => h m (List.mem_cons_of_mem b hm))
    cases b with
    | policy p =>
      refine ⟨policy_resolved p :: l, ?_, ?_⟩
      · simp [resolve_all, hl, bind, Except.bind, pure, Except.pure]
      · simp [hmap, Blueprint.fact_id, policy_resolved]
    | metric m =>
      have hmem := h m (List.mem_cons_self _ _)
      obtain ⟨hfb1, hfb2⟩ := metric_fallback_total m hmem
      obtain ⟨r, hr, hid⟩ := resolve_metric_ok fetch m hfb1 hfb2
      refine ⟨r :: l, ?_, ?_⟩
      · simp [resolve_all, hr, hl, bind, Except.bind, pure, Except.pure]
      · simp [hmap, hid, Blueprint.fact_id]

/-! ## Claims C1, C9, C5: the daily selection -/

/-- Claim C1: for every day-of-year integer and every choice of focus
categories and comparison tags, `build_daily_fact_pack` succeeds and returns
an ordered list of exactly 9 resolved facts — the final padding pass over
the full 24-record bank always fills the pack to the target count of 9. -/
theorem claim_C1_pack_has_nine_facts (fetch : WBFetch) (day_of_year : Int)
    (focus_categories comparison_tags : List String) :
    ∃ pack, build_daily_fact_pack fetch day_of_year focus_categories comparison_tags
        = Except.ok pack ∧ pack.length = 9 := by
  obtain ⟨hlen, _, hmem⟩ := select_blueprints_sound day_of_year focus_categories comparison_tags
  obtain ⟨l, hl, hmap⟩ := resolve_all_ok fetch
    (_select_blueprints day_of_year focus_categories comparison_tags 9)
    (fun m hm => metric_mem_bank (hmem _ hm))
  refine ⟨l, by simpa [build_daily_fact_pack] using hl, ?_⟩
  have hll := congrArg List.length hmap
  simpa [hlen] using hll

/-- Claim C9: no fact appears twice in a daily pack — for every day-of-year,
focus categories, and comparison tags, the fact ids selected by
`_select_blueprints` (and hence resolved by `build_daily_fact_pack`) are
pairwise distinct, although the three selection pools overlap. -/
theorem claim_C9_pack_ids_distinct (fetch : WBFetch) (day_of_year : Int)
    (focus_categories comparison_tags : List String) :
    ((_select_blueprints day_of_year focus_categories comparison_tags 9).map
      Blueprint.fact_id).Nodup ∧
    ∃ pack, build_daily_fact_pack fetch day_of_year focus_categories comparison_tags
        = Except.ok pack ∧ (pack.map ResolvedFact.fact_id).Nodup := by
  obtain ⟨_, hnd, hmem⟩ := select_blueprints_sound day_of_year focus_categories comparison_tags
  obtain ⟨l, hl, hmap⟩ := resolve_all_ok fetch
    (_select_blueprints day_of_year focus_categories comparison_tags 9)
    (fun m hm => metric_mem_bank (hmem _ hm))
  exact ⟨hnd, l, by simpa [build_daily_fact_pack] using hl, by rw [hmap]; exact hnd⟩

/-- Claim C5: the fact pack is assembled by three rotate-and-filter phases in
order (focus categories with seed `day_of_year` up to 4, comparison tags with
seed `day_of_year + 5` up to 7, full bank with seed `day_of_year + 11` up to
9); in particular, whenever at least 4 bank records match the focus
categories, the first 4 entries of the selection all have a category in the
focus set. -/
theorem claim_C5_three_phase_selection (day_of_year : Int)
    (focus_categories comparison_tags : List String)
    (h4 : 4 ≤ (all_facts.filter (fun f => focus_categories.contains f.category)).length) :
    (_select_blueprints day_of_year focus_categories comparison_tags 9 =
      add_from_pool (_rotate all_facts (day_of_year + 11)) 9
        (add_from_pool (_rotate (all_facts.filter
            (fun f => f.tags.any (fun t => comparison_tags.contains t))) (day_of_year + 5)) 7
          (add_from_pool (_rotate (all_facts.filter
            (fun f => focus_categories.contains f.category)) day_of_year) 4 []))) ∧
    (_select_blueprints day_of_year focus_categories comparison_tags 9).take 4 =
      add_from_pool (_rotate (all_facts.filter
        (fun f => focus_categories.contains f.category)) day_of_year) 4 [] ∧
    ∀ b ∈ (_select_blueprints day_of_year focus_categories comparison_tags 9).take 4,
      b.category ∈ focus_categories := by
  set by_category := all_facts.filter (fun f => focus_categories.contains f.category)
    with hbc
  set pool1 := _rotate by_category day_of_year with hpool1
  set pool2 := _rotate (all_facts.filter
    (fun f => f.tags.any (fun t => comparison_tags.contains t))) (day_of_year + 5) with hpool2
  set pool3 := _rotate all_facts (day_of_year + 11) with hpool3
  set s1 := add_from_pool pool1 4 [] with hs1def
  have hperm1 : pool1.Perm by_category := rotate_perm by_category day_of_year
  have hn1 : (pool1.map Blueprint.fact_id).Nodup := by
    refine ((hperm1.map Blueprint.fact_id).nodup_iff).2 ?_
    exact all_facts_ids_nodup.sublist ((List.filter_sublist all_facts).map Blueprint.fact_id)
  have hfr : pool1.filter (fun g => decide (g.fact_id ∉ ([] : List Blueprint).map
      Blueprint.fact_id)) = pool1 := by
    apply List.filter_eq_self.mpr
    intro a _
    simp
  have hs1len : s1.length = 4 := by
    refine add_from_pool_length_eq pool1 4 [] (by simp) hn1 ?_
    rw [hfr]
    rw [hperm1.length_eq]
    simpa using h4
  have hphase : _select_blueprints day_of_year focus_categories comparison_tags 9 =
      add_from_pool pool3 9 (add_from_pool pool2 7 s1) := rfl
  obtain ⟨t1, ht1⟩ := add_from_pool_append pool2 7 s1
  obtain ⟨t2, ht2⟩ := add_from_pool_append pool3 9 (add_from_pool pool2 7 s1)
  have hsplit : _select_blueprints day_of_year focus_categories comparison_tags 9
      = s1 ++ (t1 ++ t2) := by
    rw [hphase, ht2, ht1, List.append_assoc]
  have htake : (_select_blueprints day_of_year focus_categories comparison_tags 9).take 4
      = s1 := by
    rw [hsplit, ← hs1len, List.take_left]
  refine ⟨hphase, htake, ?_⟩
  intro b hb
  rw [htake] at hb
  rcases add_from_pool_mem pool1 4 [] b hb with h | h
  · simp at h
  · have hmf := List.mem_filter.1 (hperm1.mem_iff.1 h)
    simpa [List.elem_iff] using hmf.2

/-- Witness for C5: day 3, two concrete focus categories matched by five bank
records, one comparison tag. -/
theorem claim_C5_three_phase_selection_witness :
    (_select_blueprints 3 (["Currency, capital, and financial system",
        "Clean water, sanitation, and reliable basic infrastructure"]) (["us_risk"]) 9).take 4 =
      add_from_pool (_rotate (all_facts.filter
        (fun f => (["Currency, capital, and financial system",
          "Clean water, sanitation, and reliable basic infrastructure"] : List String).contains
            f.category)) 3) 4 [] :=
  (claim_C5_three_phase_selection 3 ["Currency, capital, and financial system",
    "Clean water, sanitation, and reliable basic infrastructure"] ["us_risk"]
    (by decide)).2.1

/-! ## Claim C4: fallback-protected resolution -/

/-- Claim C4: the one outbound network call is protected by a static
fallback. If the fetch raises (outcome `none`), `_resolve_metric_fact`
substitutes the template's hardcoded fallback (year, value) pair for each
country and still returns a `ResolvedFact`; and since every template in
`METRIC_FACTS` carries fallback entries for both countries, resolving a
shipped metric fact never raises, whatever the fetch outcome. -/
theorem claim_C4_fallback_protects_resolution (m : MetricFact)
    (hm : m ∈ METRIC_FACTS) (fetch : WBFetch) :
    (∃ r, _resolve_metric_fact fetch m = Except.ok r) ∧
    ∃ pca pcm, List.lookup ("CA") m.fallback = some pca ∧
      List.lookup m.comparison_country m.fallback = some pcm ∧
      _resolve_metric_fact (fun _ _ => none) m =
        Except.ok (mk_metric_resolved m pca pcm) := by
  obtain ⟨h1, h2⟩ := metric_fallback_total m hm
  obtain ⟨pca, hpca⟩ := Option.isSome_iff_exists.1 h1
  obtain ⟨pcm, hpcm⟩ := Option.isSome_iff_exists.1 h2
  obtain ⟨r, hr, _⟩ := resolve_metric_ok fetch m h1 h2
  refine ⟨⟨r, hr⟩, pca, pcm, hpca, hpcm, ?_⟩
  unfold _resolve_metric_fact
  simp [hpca, hpcm, bind, Except.bind, pure, Except.pure]

/-- Witness for C4: the first shipped metric template (life expectancy),
resolved under a failing fetch. -/
theorem claim_C4_fallback_protects_resolution_witness :
    (∃ r, _resolve_metric_fact (fun _ _ => none)
        (METRIC_FACTS.head (by simp [METRIC_FACTS])) = Except.ok r) ∧
    ∃ pca pcm,
      List.lookup ("CA") (METRIC_FACTS.head (by simp [METRIC_FACTS])).fallback = some pca ∧
      List.lookup (METRIC_FACTS.head (by simp [METRIC_FACTS])).comparison_country
        (METRIC_FACTS.head (by simp [METRIC_FACTS])).fallback = some pcm ∧
      _resolve_metric_fact (fun _ _ => none) (METRIC_FACTS.head (by simp [METRIC_FACTS])) =
        Except.ok (mk_metric_resolved (METRIC_FACTS.head (by simp [METRIC_FACTS])) pca pcm) :=
  claim_C4_fallback_protects_resolution (METRIC_FACTS.head (by simp [METRIC_FACTS]))
    (List.head_mem (by simp [METRIC_FACTS])) (fun _ _ => none)

/-! ## Claim C2: determinism of the daily output -/

/-- Claim C2: the daily output is deterministic given the date and the
available network data. Two runs of `build_daily_fact_pack` followed by
`render_focus_and_evidence` (composed in `daily_output`) with the same
day-of-year, the same focus, and the same World Bank fetch outcome produce
character-for-character identical output. -/
theorem claim_C2_output_deterministic (fetch1 fetch2 : WBFetch) (day_of_year : Int)
    (focus_categories comparison_tags : List String) (comparison_label : String)
    (hsame : ∀ indicator countries, fetch1 indicator countries = fetch2 indicator countries) :
    build_daily_fact_pack fetch1 day_of_year focus_categories comparison_tags =
      build_daily_fact_pack fetch2 day_of_year focus_categories comparison_tags ∧
    daily_output fetch1 day_of_year focus_categories comparison_tags comparison_label =
      daily_output fetch2 day_of_year focus_categories comparison_tags comparison_label := by
  have hfe : fetch1 = fetch2 := funext (fun i => funext (fun cs => hsame i cs))
  rw [hfe]
  exact ⟨rfl, rfl⟩

/-- Witness for C2: two runs at day 37 under the same failing fetch. -/
theorem claim_C2_output_deterministic_witness :
    build_daily_fact_pack (fun _ _ => none) 37 (choose_daily_focus 37).categories
        (choose_daily_focus 37).comparison_tags =
      build_daily_fact_pack (fun _ _ => none) 37 (choose_daily_focus 37).categories
        (choose_daily_focus 37).comparison_tags ∧
    daily_output (fun _ _ => none) 37 (choose_daily_focus 37).categories
        (choose_daily_focus 37).comparison_tags (choose_daily_focus 37).comparison_label =
      daily_output (fun _ _ => none) 37 (choose_daily_focus 37).categories
        (choose_daily_focus 37).comparison_tags (choose_daily_focus 37).comparison_label :=
  claim_C2_output_deterministic (fun _ _ => none) (fun _ _ => none) 37
    (choose_daily_focus 37).categories (choose_daily_focus 37).comparison_tags
    (choose_daily_focus 37).comparison_label (fun _ _ => rfl)

/-! ## Claim C3: day-of-year-derived focus -/

theorem categories_nodup : CATEGORIES.Nodup := by decide

theorem categories_getD_ne {i j : Nat} (hi : i < 23) (hj : j < 23) (hij : i ≠ j) :
    CATEGORIES.getD i "" ≠ CATEGORIES.getD j "" := by
  have hi' : i < CATEGORIES.length := hi
  have hj' : j < CATEGORIES.length := hj
  rw [List.getD_eq_getElem CATEGORIES "" hi', List.getD_eq_getElem CATEGORIES "" hj']
  simp [List.Nodup.getElem_inj_iff categories_nodup]
  omega

/-- Claim C3: for every day-of-year, the daily focus is a day-of-year-derived
selection of 2–3 categories (three distinct ones in `choose_daily_focus`, two
in the mailer's `get_todays_focus`) and exactly one comparison profile, all
picked by `day_of_year` (and its offsets 7 and 14) modulo the respective list
lengths — the collision-avoidance adjustments in both functions never fire at
these list lengths. -/
theorem claim_C3_focus_by_modulo (day_of_year : Int) :
    (choose_daily_focus day_of_year).categories =
      [CATEGORIES.getD ((day_of_year % (CATEGORIES.length : Int)).toNat) "",
       CATEGORIES.getD (((day_of_year + 7) % (CATEGORIES.length : Int)).toNat) "",
       CATEGORIES.getD (((day_of_year + 14) % (CATEGORIES.length : Int)).toNat) ""] ∧
    (choose_daily_focus day_of_year).categories.length = 3 ∧
    (choose_daily_focus day_of_year).categories.Nodup ∧
    (choose_daily_focus day_of_year).comparison_label =
      (COMPARISON_PROFILES.getD
        ((day_of_year % (COMPARISON_PROFILES.length : Int)).toNat) defaultProfile).label ∧
    (choose_daily_focus day_of_year).comparison_tags =
      (COMPARISON_PROFILES.getD
        ((day_of_year % (COMPARISON_PROFILES.length : Int)).toNat) defaultProfile).tags ∧
    get_todays_focus day_of_year = mailer_focus_text
      (_CATEGORIES.getD ((day_of_year % (_CATEGORIES.length : Int)).toNat) "")
      (_CATEGORIES.getD (((day_of_year + 7) % (_CATEGORIES.length : Int)).toNat) "")
      (_COMPARISON_FOCUSES.getD
        ((day_of_year % (_COMPARISON_FOCUSES.length : Int)).toNat) "") := by
  have hlen : (CATEGORIES.length : Int) = 23 := by decide
  have hlenm : (_CATEGORIES.length : Int) = 23 := by decide
  have h1 : ¬ (day_of_year + 7) % (23 : Int) = day_of_year % 23 := by omega
  have h2 : ¬ (day_of_year + 14) % (23 : Int) = day_of_year % 23 := by omega
  have h3 : ¬ (day_of_year + 14) % (23 : Int) = (day_of_year + 7) % 23 := by omega
  have hcats : (choose_daily_focus day_of_year).categories =
      [CATEGORIES.getD ((day_of_year % (23 : Int)).toNat) "",
       CATEGORIES.getD (((day_of_year + 7) % (23 : Int)).toNat) "",
       CATEGORIES.getD (((day_of_year + 14) % (23 : Int)).toNat) ""] := by
    simp only [choose_daily_focus, hlen]
    rw [if_neg h1, if_neg (by rintro (h | h); exact h2 h; exact h3 h)]
  refine ⟨by rw [hlen]; exact hcats, ?_, ?_, rfl, rfl, ?_⟩
  · rw [hcats]
    rfl
  · rw [hcats]
    have hb1 : (day_of_year % (23 : Int)).toNat < 23 := by omega
    have hb2 : (((day_of_year + 7) % (23 : Int))).toNat < 23 := by omega
    have hb3 : (((day_of_year + 14) % (23 : Int))).toNat < 23 := by omega
    have hd1 : (day_of_year % (23 : Int)).toNat ≠ ((day_of_year + 7) % (23 : Int)).toNat := by
      omega
    have hd2 : (day_of_year % (23 : Int)).toNat ≠ ((day_of_year + 14) % (23 : Int)).toNat := by
      omega
    have hd3 : ((day_of_year + 7) % (23 : Int)).toNat ≠
        ((day_of_year + 14) % (23 : Int)).toNat := by omega
    refine List.nodup_cons.2 ⟨?_, List.nodup_cons.2 ⟨?_, List.nodup_singleton _⟩⟩
    · intro hmem
      rcases List.mem_cons.1 hmem with h | h
      · exact categories_getD_ne hb1 hb2 hd1 h
      · exact categories_getD_ne hb1 hb3 hd2 (List.mem_singleton.1 h)
    · intro hmem
      exact categories_getD_ne hb2 hb3 hd3 (List.mem_singleton.1 hmem)
  · simp only [get_todays_focus, hlenm]
    rw [if_neg h1]

/-! ## Word and paragraph lemmas (for C6) -/

theorem dropWhile_head_not {p : Char → Bool} {l : List Char} {c : Char} {t : List Char}
    (h : l.dropWhile p = c :: t) : p c = false := by
  induction l with
  | nil => simp [List.dropWhile] at h
  | cons x rest ih =>
    rw [List.dropWhile_cons] at h
    by_cases hx : p x
    · rw [if_pos hx] at h
      exact ih h
    · rw [if_neg hx] at h
      cases h
      exact Bool.of_not_eq_true hx

theorem pStrip_has_nonspace {l : List Char} (h : pStrip l ≠ []) :
    ∃ c ∈ pStrip l, isPySpace c = false := by
  unfold pStrip at h ⊢
  cases hY : (l.dropWhile isPySpace).reverse.dropWhile isPySpace with
  | nil => simp [hY] at h
  | cons c t =>
    refine ⟨c, ?_, dropWhile_head_not hY⟩
    exact List.mem_reverse.2 (List.mem_cons_self c t)

theorem wordsAux_eq_nil {l acc : List Char} (h : wordsAux l acc = []) :
    acc = [] ∧ ∀ c ∈ l, isPySpace c = true := by
  induction l generalizing acc with
  | nil =>
    rw [wordsAux] at h
    by_cases hacc : acc.isEmpty
    · exact ⟨List.isEmpty_iff.1 hacc, by simp⟩
    · rw [if_neg hacc] at h
      simp at h
  | cons c rest ih =>
    rw [wordsAux] at h
    by_cases hc : isPySpace c
    · rw [if_pos hc] at h
      by_cases hacc : acc.isEmpty
      · rw [if_pos hacc] at h
        obtain ⟨_, hall⟩ := ih h
        refine ⟨List.isEmpty_iff.1 hacc, ?_⟩
        intro d hd
        rcases List.mem_cons.1 hd with rfl | hd'
        · exact hc
        · exact hall d hd'
      · rw [if_neg hacc] at h
        simp at h
    · rw [if_neg hc] at h
      obtain ⟨habs, _⟩ := ih h
      simp at habs

theorem pStrip_words_pos {p : List Char} (h : pStrip p ≠ []) :
    1 ≤ (pWords (pStrip p)).length := by
  obtain ⟨c, hc, hcw⟩ := pStrip_has_nonspace h
  cases hw : pWords (pStrip p) with
  | nil =>
    obtain ⟨_, hall⟩ := wordsAux_eq_nil (hw ▸ rfl : wordsAux (pStrip p) [] = [])
    rw [hall c hc] at hcw
    simp at hcw
  | cons w ws => simp

theorem wordsAux_append_ws_end {c : Char} (hc : isPySpace c = true) (a : List Char) :
    ∀ acc, wordsAux (a ++ [c]) acc = wordsAux a acc := by
  induction a with
  | nil =>
    intro acc
    by_cases hacc : acc.isEmpty
    · simp [wordsAux, hc, hacc]
    · simp [wordsAux, hc, hacc]
  | cons x a' ih =>
    intro acc
    by_cases hx : isPySpace x
    · by_cases hacc : acc.isEmpty
      · simp [wordsAux, hx, hacc, ih]
      · simp [wordsAux, hx, hacc, ih]
    · simp [wordsAux, hx, ih]

theorem wordsAux_nil_eq (acc : List Char) :
    wordsAux [] acc = if acc.isEmpty then [] else [acc.reverse] := rfl

theorem wordsAux_cons_eq (c : Char) (l acc : List Char) :
    wordsAux (c :: l) acc =
      if isPySpace c then
        (if acc.isEmpty then wordsAux l [] else acc.reverse :: wordsAux l [])
      else wordsAux l (c :: acc) := rfl

theorem wordsAux_append_ws {c : Char} (hc : isPySpace c = true) (a : List Char) :
    ∀ b acc, wordsAux (a ++ c :: b) acc = wordsAux (a ++ [c]) acc ++ wordsAux b [] := by
  induction a with
  | nil =>
    intro b acc
    rw [List.nil_append, List.nil_append, wordsAux_cons_eq, wordsAux_cons_eq, if_pos hc,
      if_pos hc]
    by_cases hacc : acc.isEmpty
    · rw [if_pos hacc, if_pos hacc, wordsAux_nil_eq]
      simp
    · rw [if_neg hacc, if_neg hacc, wordsAux_nil_eq]
      simp
  | cons x a' ih =>
    intro b acc
    rw [List.cons_append, List.cons_append, wordsAux_cons_eq, wordsAux_cons_eq]
    by_cases hx : isPySpace x
    · rw [if_pos hx, if_pos hx]
      by_cases hacc : acc.isEmpty
      · rw [if_pos hacc, if_pos hacc, ih]
      · rw [if_neg hacc, if_neg hacc, ih]
        simp
    · rw [if_neg hx, if_neg hx, ih]

theorem pWords_append_ws {c : Char} (hc : isPySpace c = true) (a b : List Char) :
    pWords (a ++ c :: b) = pWords a ++ pWords b := by
  unfold pWords
  rw [wordsAux_append_ws hc a b [], wordsAux_append_ws_end hc a []]

theorem pWords_cons_ws {c : Char} (hc : isPySpace c = true) (l : List Char) :
    pWords (c :: l) = pWords l := by
  unfold pWords
  rw [wordsAux, if_pos hc]
  simp

theorem pWords_join_nn (xs : List (List Char)) :
    pWords (joinSep ['\n', '\n'] xs) = xs.flatMap pWords := by
  match xs with
  | [] => simp [joinSep, pWords, wordsAux]
  | [x] => simp [joinSep]
  | x :: y :: rest =>
    have hnl : isPySpace '\n' = true := by decide
    have h0 : joinSep ['\n', '\n'] (x :: y :: rest)
        = x ++ '\n' :: ('\n' :: joinSep ['\n', '\n'] (y :: rest)) := by
      show x ++ ['\n', '\n'] ++ joinSep ['\n', '\n'] (y :: rest) = _
      simp
    rw [h0, pWords_append_ws hnl, pWords_cons_ws hnl, pWords_join_nn (y :: rest)]
    simp

theorem sumWords_cons (p : List Char) (l : List (List Char)) :
    sumWords (p :: l) = (pWords p).length + sumWords l := by
  simp [sumWords]

theorem sumWords_eq_flat (xs : List (List Char)) :
    sumWords xs = (xs.flatMap pWords).length := by
  induction xs with
  | nil => simp [sumWords]
  | cons x rest ih => simp [sumWords_cons, ih]

theorem spec_take_within_le (ps : List (List Char)) :
    ∀ b, sumWords (spec_take_within ps b) ≤ b := by
  induction ps with
  | nil =>
    intro b
    simp [spec_take_within, sumWords]
  | cons p rest ih =>
    intro b
    rw [spec_take_within]
    by_cases hb : (pWords p).length ≤ b
    · rw [if_pos hb, sumWords_cons]
      have := ih (b - (pWords p).length)
      omega
    · rw [if_neg hb]
      simp [sumWords]

theorem spec_take_within_max (ps : List (List Char)) :
    ∀ b k, k ≤ ps.length → sumWords (ps.take k) ≤ b →
      k ≤ (spec_take_within ps b).length := by
  induction ps with
  | nil =>
    intro b k hk _
    simp at hk
    simp [spec_take_within, hk]
  | cons p rest ih =>
    intro b k hk hsum
    cases k with
    | zero => simp
    | succ k' =>
      rw [List.take_succ_cons, sumWords_cons] at hsum
      have hb : (pWords p).length ≤ b := by omega
      rw [spec_take_within, if_pos hb]
      simp only [List.length_cons]
      have := ih (b - (pWords p).length) k' (by simpa using hk) (by omega)
      omega

theorem wordsAux_props (l : List Char) :
    ∀ acc, (∀ c ∈ acc, isPySpace c = false) →
      ∀ w ∈ wordsAux l acc, w ≠ [] ∧ ∀ c ∈ w, isPySpace c = false := by
  induction l with
  | nil =>
    intro acc hacc w hw
    rw [wordsAux_nil_eq] at hw
    by_cases h : acc.isEmpty
    · rw [if_pos h] at hw
      simp at hw
    · rw [if_neg h] at hw
      simp at hw
      subst hw
      refine ⟨by simpa [List.isEmpty_iff] using h, ?_⟩
      intro c hc
      exact hacc c (List.mem_reverse.1 hc)
  | cons c rest ih =>
    intro acc hacc w hw
    rw [wordsAux_cons_eq] at hw
    by_cases hc : isPySpace c
    · rw [if_pos hc] at hw
      by_cases h : acc.isEmpty
      · rw [if_pos h] at hw
        exact ih [] (by simp) w hw
      · rw [if_neg h] at hw
        rcases List.mem_cons.1 hw with rfl | hw'
        · refine ⟨by simpa [List.isEmpty_iff] using h, ?_⟩
          intro d hd
          exact hacc d (List.mem_reverse.1 hd)
        · exact ih [] (by simp) w hw'
    · rw [if_neg hc] at hw
      refine ih (c :: acc) ?_ w hw
      intro d hd
      rcases List.mem_cons.1 hd with rfl | hd'
      · exact Bool.of_not_eq_true hc
      · exact hacc d hd'

theorem wordsAux_all_nonspace (x : List Char) :
    ∀ acc, (∀ c ∈ x, isPySpace c = false) →
      wordsAux x acc = if (acc.reverse ++ x).isEmpty then [] else [acc.reverse ++ x] := by
  induction x with
  | nil =>
    intro acc _
    rw [wordsAux_nil_eq]
    by_cases h : acc.isEmpty
    · have : acc = [] := List.isEmpty_iff.1 h
      simp [this]
    · have : acc ≠ [] := by simpa [List.isEmpty_iff] using h
      simp [h, this]
  | cons c x' ih =>
    intro acc hx
    have hc : ¬ isPySpace c = true := by
      simp [hx c (List.mem_cons_self c x')]
    rw [wordsAux_cons_eq, if_neg hc, ih (c :: acc) (fun d hd => hx d (List.mem_cons_of_mem c hd))]
    have harr : (c :: acc).reverse ++ x' = acc.reverse ++ c :: x' := by
      simp
    rw [harr]

theorem pWords_join_space (ws : List (List Char))
    (h : ∀ w ∈ ws, w ≠ [] ∧ ∀ c ∈ w, isPySpace c = false) :
    pWords (joinSep [' '] ws) = ws := by
  match ws with
  | [] => simp [joinSep, pWords, wordsAux]
  | [x] =>
    have hx := h x (by simp)
    show pWords x = [x]
    unfold pWords
    rw [wordsAux_all_nonspace x [] (fun c hc => hx.2 c hc)]
    simp [hx.1]
  | x :: y :: rest =>
    have hsp : isPySpace ' ' = true := by decide
    have h0 : joinSep [' '] (x :: y :: rest) = x ++ ' ' :: joinSep [' '] (y :: rest) := by
      show x ++ [' '] ++ joinSep [' '] (y :: rest) = _
      simp
    rw [h0, pWords_append_ws hsp,
      pWords_join_space (y :: rest) (fun w hw => h w (List.mem_cons_of_mem x hw))]
    have hx := h x (List.mem_cons_self x (y :: rest))
    have hpx : pWords x = [x] := by
      unfold pWords
      rw [wordsAux_all_nonspace x [] (fun c hc => hx.2 c hc)]
      simp [hx.1]
    rw [hpx]
    rfl

theorem truncLoop_nil_eq (wc : Nat) : truncLoop [] wc = [] := rfl

theorem truncLoop_cons_eq (p : List Char) (rest : List (List Char)) (wc : Nat) :
    truncLoop (p :: rest) wc =
      if (pStrip p).isEmpty then truncLoop rest wc
      else if wc + (pWords (pStrip p)).length ≤ 400 then
        pStrip p :: truncLoop rest (wc + (pWords (pStrip p)).length)
      else if wc = 0 then [joinSep [' '] ((pWords (pStrip p)).take 400)]
      else [] := rfl

theorem truncLoop_pos (ps : List (List Char)) :
    ∀ wc, 0 < wc →
      truncLoop ps wc =
        spec_take_within ((ps.map pStrip).filter (fun p => !p.isEmpty)) (400 - wc) := by
  induction ps with
  | nil =>
    intro wc _
    simp [truncLoop_nil_eq, spec_take_within]
  | cons p rest ih =>
    intro wc hwc
    rw [truncLoop_cons_eq]
    by_cases hq : (pStrip p).isEmpty
    · rw [if_pos hq, ih wc hwc]
      have hdrop : ((p :: rest).map pStrip).filter (fun x => !x.isEmpty)
          = (rest.map pStrip).filter (fun x => !x.isEmpty) := by
        simp [List.filter_cons, hq]
      rw [hdrop]
    · rw [if_neg hq]
      have hq' : pStrip p ≠ [] := by simpa [List.isEmpty_iff] using hq
      have hn1 : 1 ≤ (pWords (pStrip p)).length := pStrip_words_pos hq'
      have hstep : ((p :: rest).map pStrip).filter (fun x => !x.isEmpty)
          = pStrip p :: (rest.map pStrip).filter (fun x => !x.isEmpty) := by
        simp [List.filter_cons, hq]
      rw [hstep]
      by_cases hle : wc + (pWords (pStrip p)).length ≤ 400
      · rw [if_pos hle, spec_take_within, if_pos (by omega), ih _ (by omega)]
        have hsub : 400 - wc - (pWords (pStrip p)).length
            = 400 - (wc + (pWords (pStrip p)).length) := by omega
        rw [hsub]
      · rw [if_neg hle, if_neg (by omega), spec_take_within, if_neg (by omega)]

theorem truncLoop_zero (ps : List (List Char)) :
    truncLoop ps 0 =
      if 400 < (pWords (((ps.map pStrip).filter (fun p => !p.isEmpty)).headD [])).length then
        [joinSep [' ']
          ((pWords (((ps.map pStrip).filter (fun p => !p.isEmpty)).headD [])).take 400)]
      else spec_take_within ((ps.map pStrip).filter (fun p => !p.isEmpty)) 400 := by
  induction ps with
  | nil =>
    simp [truncLoop_nil_eq, spec_take_within, pWords, wordsAux]
  | cons p rest ih =>
    rw [truncLoop_cons_eq]
    by_cases hq : (pStrip p).isEmpty
    · rw [if_pos hq, ih]
      have hdrop : ((p :: rest).map pStrip).filter (fun x => !x.isEmpty)
          = (rest.map pStrip).filter (fun x => !x.isEmpty) := by
        simp [List.filter_cons, hq]
      rw [hdrop]
    · rw [if_neg hq]
      have hq' : pStrip p ≠ [] := by simpa [List.isEmpty_iff] using hq
      have hn1 : 1 ≤ (pWords (pStrip p)).length := pStrip_words_pos hq'
      have hstep : ((p :: rest).map pStrip).filter (fun x => !x.isEmpty)
          = pStrip p :: (rest.map pStrip).filter (fun x => !x.isEmpty) := by
        simp [List.filter_cons, hq]
      rw [hstep]
      by_cases hle : 0 + (pWords (pStrip p)).length ≤ 400
      · rw [if_pos hle, truncLoop_pos rest _ (by omega)]
        rw [List.headD_cons, if_neg (by omega), spec_take_within, if_pos (by omega)]
        have hsub : 400 - (0 + (pWords (pStrip p)).length) = 400 - (pWords (pStrip p)).length := by
          omega
        rw [hsub]
      · rw [if_neg hle, if_pos rfl, List.headD_cons, if_pos (by omega)]

/-! ## Claim C6: word-count truncation at paragraph boundaries -/

/-- Claim C6: for every reflection text, the truncation step of
`generate_reflection` yields at most 400 whitespace-separated words, and the
result is the maximal prefix of the text's non-empty (stripped) paragraphs
whose cumulative word count does not exceed 400, rejoined with blank lines —
except that when the first non-empty paragraph alone exceeds 400 words, it
is cut to its first 400 words (space-joined) and nothing else is kept. The
last two conjuncts state that the kept prefix indeed stays within 400 words
and is maximal among prefixes within 400 words. -/
theorem claim_C6_truncation (reflection : String) :
    wordCountS (truncate_reflection reflection) ≤ 400 ∧
    truncate_reflection reflection = String.mk (
      if 400 < (pWords ((spec_nonempty_paragraphs reflection).headD [])).length then
        joinSep [' '] ((pWords ((spec_nonempty_paragraphs reflection).headD [])).take 400)
      else joinSep ['\n', '\n'] (spec_take_within (spec_nonempty_paragraphs reflection) 400)) ∧
    sumWords (spec_take_within (spec_nonempty_paragraphs reflection) 400) ≤ 400 ∧
    ∀ k, k ≤ (spec_nonempty_paragraphs reflection).length →
      sumWords ((spec_nonempty_paragraphs reflection).take k) ≤ 400 →
      k ≤ (spec_take_within (spec_nonempty_paragraphs reflection) 400).length := by
  have hsp : spec_nonempty_paragraphs reflection
      = ((splitParas reflection.data []).map pStrip).filter (fun p => !p.isEmpty) := rfl
  refine ⟨?_, ?_, spec_take_within_le _ 400, fun k => spec_take_within_max _ 400 k⟩
  · show (pWords (joinSep ['\n', '\n'] (truncLoop (splitParas reflection.data []) 0))).length
      ≤ 400
    rw [truncLoop_zero]
    by_cases hov : 400 < (pWords ((((splitParas reflection.data []).map pStrip).filter
        (fun p => !p.isEmpty)).headD [])).length
    · rw [if_pos hov]
      set q := (((splitParas reflection.data []).map pStrip).filter
        (fun p => !p.isEmpty)).headD [] with hqdef
      have hprops : ∀ w ∈ (pWords q).take 400, w ≠ [] ∧ ∀ c ∈ w, isPySpace c = false :=
        fun w hw => wordsAux_props q [] (by simp) w (List.take_subset 400 (pWords q) hw)
      have hj : pWords (joinSep [' '] ((pWords q).take 400)) = (pWords q).take 400 :=
        pWords_join_space ((pWords q).take 400) hprops
      show (pWords (joinSep ['\n', '\n'] [joinSep [' '] ((pWords q).take 400)])).length ≤ 400
      have hone : joinSep ['\n', '\n'] [joinSep [' '] ((pWords q).take 400)]
          = joinSep [' '] ((pWords q).take 400) := rfl
      rw [hone, hj]
      exact List.length_take_le 400 (pWords q)
    · rw [if_neg hov, pWords_join_nn, ← sumWords_eq_flat]
      exact spec_take_within_le _ 400
  · show String.mk (joinSep ['\n', '\n'] (truncLoop (splitParas reflection.data []) 0)) = _
    rw [truncLoop_zero, hsp]
    by_cases hov : 400 < (pWords ((((splitParas reflection.data []).map pStrip).filter
        (fun p => !p.isEmpty)).headD [])).length
    · rw [if_pos hov, if_pos hov]
      rfl
    · rw [if_neg hov, if_neg hov]

/-! ## Renderer block lemmas (for C8) -/

theorem dropWhile_idem (p : Char → Bool) (l : List Char) :
    List.dropWhile p (List.dropWhile p l) = List.dropWhile p l := by
  cases h : List.dropWhile p l with
  | nil => simp
  | cons c t =>
    rw [List.dropWhile_cons, if_neg (by simp [dropWhile_head_not h])]

theorem pStrip_isPrefix (l : List Char) : pStrip l <+: l.dropWhile isPySpace := by
  unfold pStrip
  have hsfx : ((l.dropWhile isPySpace).reverse.dropWhile isPySpace) <:+
      (l.dropWhile isPySpace).reverse := List.dropWhile_suffix isPySpace
  have := List.reverse_prefix.2 hsfx
  simpa using this

theorem pStrip_idem (l : List Char) : pStrip (pStrip l) = pStrip l := by
  have h1 : (pStrip l).dropWhile isPySpace = pStrip l := by
    cases hx : pStrip l with
    | nil => simp
    | cons c t =>
      have hpre := pStrip_isPrefix l
      rw [hx] at hpre
      obtain ⟨s, hs⟩ := hpre
      have hhead : l.dropWhile isPySpace = c :: (t ++ s) := by
        rw [← hs]
        simp
      rw [List.dropWhile_cons, if_neg (by simp [dropWhile_head_not hhead])]
  have h2 : (pStrip l).reverse.dropWhile isPySpace = (pStrip l).reverse := by
    have hrev : (pStrip l).reverse = (l.dropWhile isPySpace).reverse.dropWhile isPySpace := by
      simp [pStrip]
    rw [hrev, dropWhile_idem]
  show (((pStrip l).dropWhile isPySpace).reverse.dropWhile isPySpace).reverse = pStrip l
  rw [h1, h2]
  simp

theorem is_heading_line_spec {l : List Char} (hs : pStrip l = l) (hne : l ≠ []) :
    _is_heading_line l = spec_heading_line l := by
  unfold _is_heading_line spec_heading_line
  rw [hs, if_neg (by simpa [List.isEmpty_iff] using hne)]
  by_cases h1 : startsWithL ("### ".toList) l = true
  · rw [if_pos h1, h1]
    simp
  · rw [if_neg h1]
    have h1' : startsWithL ("### ".toList) l = false := by
      exact Bool.of_not_eq_true h1
    rw [h1', Bool.false_or]
    by_cases h2 : (startsWithL ("**".toList) l && endsWithL ("**".toList) l &&
        (countStarStar l == 2)) = true
    · rw [if_pos h2, h2, Bool.true_or]
    · have h2' : (startsWithL ("**".toList) l && endsWithL ("**".toList) l &&
          (countStarStar l == 2)) = false := Bool.of_not_eq_true h2
      rw [if_neg h2, h2', Bool.false_or]

theorem heading_line_to_html_spec {l : List Char} (hs : pStrip l = l) :
    _heading_line_to_html l = H3_OPEN ++ escapeHtml (spec_strip_markers l) ++ H3_CLOSE := by
  unfold _heading_line_to_html spec_strip_markers
  rw [hs]

theorem joinSep_nl_ne_nil {ls : List (List Char)} (hne : ls ≠ [])
    (h : ∀ x ∈ ls, x ≠ []) : joinSep ['\n'] ls ≠ [] := by
  match ls with
  | [x] => simpa [joinSep] using h x (by simp)
  | x :: y :: rest =>
    show x ++ ['\n'] ++ joinSep ['\n'] (y :: rest) ≠ []
    simp

theorem blockParts_eq_spec (block : List Char) : blockParts block = spec_block_html block := by
  unfold blockParts spec_block_html
  by_cases hb : (pStrip block).isEmpty
  · rw [if_pos hb, List.isEmpty_iff.1 hb]
    rfl
  · rw [if_neg hb]
    cases hl : ((splitNl (pStrip block)).map pStrip).filter (fun ln => !ln.isEmpty) with
    | nil => rfl
    | cons l0 restLines =>
      have hmem : ∀ x ∈ l0 :: restLines, pStrip x = x ∧ x ≠ [] := by
        intro x hx
        rw [← hl] at hx
        obtain ⟨hxf, hxe⟩ := List.mem_filter.1 hx
        obtain ⟨y, _, hy⟩ := List.mem_map.1 hxf
        constructor
        · rw [← hy]
          exact pStrip_idem y
        · simpa [List.isEmpty_iff] using hxe
      obtain ⟨hl0s, hl0ne⟩ := hmem l0 (List.mem_cons_self _ _)
      show (if _is_heading_line l0 = true then
          if (joinSep ['\n'] restLines).isEmpty = true then [_heading_line_to_html l0]
          else [_heading_line_to_html l0, paragraphHtml (joinSep ['\n'] restLines)]
        else [paragraphHtml (pStrip block)]) =
        (if spec_heading_line l0 = true then
          (H3_OPEN ++ escapeHtml (spec_strip_markers l0) ++ H3_CLOSE) ::
            (if restLines.isEmpty = true then []
             else [P_OPEN ++ replaceChar '\n' (("<br>").toList)
               (boldSub (escapeHtml (joinSep ['\n'] restLines))) ++ P_CLOSE])
        else [P_OPEN ++ replaceChar '\n' (("<br>").toList)
          (boldSub (escapeHtml (pStrip block))) ++ P_CLOSE])
      rw [is_heading_line_spec hl0s hl0ne]
      by_cases hh : spec_heading_line l0 = true
      · rw [if_pos hh, if_pos hh, heading_line_to_html_spec hl0s]
        cases hrest : restLines with
        | nil => simp [joinSep]
        | cons r rs =>
          have hjoin : joinSep ['\n'] (r :: rs) ≠ [] := by
            refine joinSep_nl_ne_nil (by simp) ?_
            intro x hx
            refine (hmem x ?_).2
            rw [hrest]
            exact List.mem_cons_of_mem l0 hx
          rw [if_neg (by simpa [List.isEmpty_iff] using hjoin),
            if_neg (by simp)]
          simp [paragraphHtml]
      · rw [if_neg hh, if_neg hh]
        rfl

theorem splitParas_no_nl : ∀ (l acc : List Char), '\n' ∉ l →
    splitParas l acc = [acc.reverse ++ l] := by
  intro l
  induction l with
  | nil =>
    intro acc _
    simp [splitParas]
  | cons c rest ih =>
    intro acc h
    have hc : ¬ c = '\n' := fun he => h (he ▸ List.mem_cons_self c rest)
    have ht : '\n' ∉ rest := fun hm => h (List.mem_cons_of_mem c hm)
    simp only [splitParas]
    rw [if_neg hc, ih (c :: acc) ht]
    simp

/-- C8: the renderer splits the text into blocks at blank lines and renders
each block from its first non-empty stripped line exactly as the claim says,
except for the heading marker stripping, which the amended rule states: a
heading line's markers are removed only when the line starts with a
`'### '` prefix or is entirely `**`-wrapped; a label-matched heading line
with trailing text is placed in the `<h3>` verbatim. Formally,
`reflection_to_html` equals the spec-side renderer assembled from
`spec_heading_line`, `spec_strip_markers` and `spec_block_html`. -/
theorem claim_C8_renderer_behaviour (reflection : String) :
    reflection_to_html reflection =
      String.mk (joinSep ['\n'] ((splitParas reflection.data []).flatMap spec_block_html)) := by
  unfold reflection_to_html
  rw [funext blockParts_eq_spec]

/-- C8 counterexample to the frozen wording: the line
`"**Advantage: x** more"` is detected as a heading (by the label rule), yet
its `**` markers are not stripped; the emitted `<h3>` retains them
verbatim. -/
theorem claim_C8_markers_not_stripped_counterexample :
    _is_heading_line (("**Advantage: x** more").toList) = true ∧
    reflection_to_html "**Advantage: x** more" =
      "<h3 style=\"margin: 1.5em 0 0.6em 0; font-size: 1.1em; font-weight: 600;\">**Advantage: x** more</h3>" := by
  constructor
  · decide
  · have hsplit := splitParas_no_nl (("**Advantage: x** more").data) [] (by decide)
    unfold reflection_to_html
    rw [hsplit]
    decide

/-! ## HTML-safety lemmas (C10) -/

theorem startsWithL_self_append (p x : List Char) : startsWithL p (p ++ x) = true := by
  induction p with
  | nil => rfl
  | cons c ps ih => simp [startsWithL, ih]

theorem startsWithL_eq_append {p l : List Char} (h : startsWithL p l = true) :
    l = p ++ l.drop p.length := by
  induction p generalizing l with
  | nil => simp
  | cons c ps ih =>
    cases l with
    | nil => simp [startsWithL] at h
    | cons d ds =>
      simp [startsWithL] at h
      obtain ⟨hc, h2⟩ := h
      rw [hc, List.cons_append]
      congr 1
      exact ih h2

theorem startsWithL_length_le {p l : List Char} (h : startsWithL p l = true) :
    p.length ≤ l.length := by
  induction p generalizing l with
  | nil => simp
  | cons c ps ih =>
    cases l with
    | nil => simp [startsWithL] at h
    | cons d ds =>
      simp [startsWithL] at h
      have hle := ih h.2
      simp only [List.length_cons]
      omega

theorem startsWithL_of_le {p a w : List Char} (h : startsWithL p (a ++ w) = true)
    (hle : p.length ≤ a.length) : startsWithL p a = true := by
  induction p generalizing a with
  | nil => rfl
  | cons c ps ih =>
    cases a with
    | nil => simp at hle
    | cons d ds =>
      rw [List.cons_append] at h
      simp [startsWithL] at h ⊢
      refine ⟨h.1, ih h.2 ?_⟩
      simp only [List.length_cons] at hle
      omega

theorem startsWithL_rev {p e rest : List Char} (h : startsWithL p (e ++ rest) = true)
    (hle : e.length ≤ p.length) : startsWithL e p = true := by
  induction e generalizing p with
  | nil => rfl
  | cons d ds ih =>
    cases p with
    | nil => simp at hle
    | cons q qs =>
      rw [List.cons_append] at h
      simp [startsWithL] at h ⊢
      refine ⟨h.1.symm, ih h.2 ?_⟩
      simp only [List.length_cons] at hle
      omega

theorem mem_of_startsWithL_long {p a : List Char} {x : Char} {t : List Char}
    (h : startsWithL p (a ++ x :: t) = true) (hgt : a.length < p.length) : x ∈ p := by
  induction a generalizing p with
  | nil =>
    cases p with
    | nil => simp at hgt
    | cons q qs =>
      simp [startsWithL] at h
      rw [h.1]
      exact List.mem_cons_self _ _
  | cons d ds ih =>
    cases p with
    | nil => simp at hgt
    | cons q qs =>
      rw [List.cons_append] at h
      simp [startsWithL] at h
      refine List.mem_cons_of_mem _ (ih h.2 ?_)
      simp only [List.length_cons] at hgt
      omega

theorem matchAtomLen_some {pats : List (List Char)} {s : List Char} {k : Nat}
    (h : matchAtomLen pats s = some k) :
    ∃ p ∈ pats, startsWithL p s = true ∧ k = p.length := by
  induction pats with
  | nil => simp [matchAtomLen] at h
  | cons p ps ih =>
    simp only [matchAtomLen] at h
    by_cases hs : startsWithL p s = true
    · rw [if_pos hs] at h
      exact ⟨p, List.mem_cons_self _ _, hs, (Option.some.inj h).symm⟩
    · rw [if_neg hs] at h
      obtain ⟨q, hq, hsq, hk⟩ := ih h
      exact ⟨q, List.mem_cons_of_mem _ hq, hsq, hk⟩

theorem matchAtomLen_mem {pats : List (List Char)}
    (hpf : ∀ p ∈ pats, ∀ q ∈ pats, startsWithL p q = true → p = q)
    {e rest : List Char} (he : e ∈ pats) :
    matchAtomLen pats (e ++ rest) = some e.length := by
  induction pats with
  | nil => simp at he
  | cons p ps ih =>
    simp only [matchAtomLen]
    by_cases hs : startsWithL p (e ++ rest) = true
    · rw [if_pos hs]
      have hpe : p = e := by
        rcases le_or_lt p.length e.length with hle | hgt
        · exact hpf p (List.mem_cons_self _ _) e he (startsWithL_of_le hs hle)
        · exact (hpf e he p (List.mem_cons_self _ _)
            (startsWithL_rev hs (Nat.le_of_lt hgt))).symm
      rw [hpe]
    · rw [if_neg hs]
      rcases List.mem_cons.1 he with rfl | he2
      · exact absurd (startsWithL_self_append e rest) hs
      · exact ih (fun a ha b hb hab =>
          hpf a (List.mem_cons_of_mem _ ha) b (List.mem_cons_of_mem _ hb) hab) he2

theorem entRests_pf : ∀ p ∈ ENT_RESTS, ∀ q ∈ ENT_RESTS, startsWithL p q = true → p = q := by
  decide

theorem tagRests_pf : ∀ p ∈ TAG_RESTS, ∀ q ∈ TAG_RESTS, startsWithL p q = true → p = q := by
  decide

theorem htmlSafeScan_chr_step {c : Char} {rest : List Char}
    (h1 : c ≠ '<') (h2 : c ≠ '&') (h3 : c ≠ '>') :
    htmlSafeScan (c :: rest) = htmlSafeScan rest := by
  simp only [htmlSafeScan]
  rw [if_neg h1, if_neg h2, if_neg h3]

theorem htmlSafeScan_ent_step {p rest : List Char} (hp : p ∈ ENT_RESTS) :
    htmlSafeScan ('&' :: (p ++ rest)) = htmlSafeScan rest := by
  simp only [htmlSafeScan]
  rw [if_pos trivial, matchAtomLen_mem entRests_pf hp]
  show htmlSafeScan ((p ++ rest).drop p.length) = htmlSafeScan rest
  rw [List.drop_left]

theorem htmlSafeScan_tag_step {p rest : List Char} (hp : p ∈ TAG_RESTS) :
    htmlSafeScan ('<' :: (p ++ rest)) = htmlSafeScan rest := by
  simp only [htmlSafeScan]
  rw [if_pos trivial, matchAtomLen_mem tagRests_pf hp]
  show htmlSafeScan ((p ++ rest).drop p.length) = htmlSafeScan rest
  rw [List.drop_left]

theorem htmlSafeScan_ent_whole {e rest : List Char} (he : e ∈ HTML_ENTITIES) :
    htmlSafeScan (e ++ rest) = htmlSafeScan rest := by
  have h1 : e = '&' :: e.drop 1 ∧ e.drop 1 ∈ ENT_RESTS := by
    have he2 := he
    simp [HTML_ENTITIES] at he2
    rcases he2 with rfl | rfl | rfl <;> exact ⟨rfl, by decide⟩
  rw [h1.1]
  show htmlSafeScan ('&' :: (e.drop 1 ++ rest)) = htmlSafeScan rest
  exact htmlSafeScan_ent_step h1.2

theorem htmlSafeScan_tag_whole {t rest : List Char} (ht : t ∈ ALLOWED_TAGS) :
    htmlSafeScan (t ++ rest) = htmlSafeScan rest := by
  have h1 : t = '<' :: t.drop 1 ∧ t.drop 1 ∈ TAG_RESTS := by
    have ht2 := ht
    simp [ALLOWED_TAGS] at ht2
    rcases ht2 with rfl | rfl | rfl | rfl | rfl | rfl | rfl <;> exact ⟨rfl, by decide⟩
  rw [h1.1]
  show htmlSafeScan ('<' :: (t.drop 1 ++ rest)) = htmlSafeScan rest
  exact htmlSafeScan_tag_step h1.2

theorem htmlSafeScan_of_HtmlSafe {l : List Char} (h : HtmlSafe l) :
    htmlSafeScan l = true := by
  induction h with
  | nil => simp only [htmlSafeScan]
  | chr h1 h3 h2 _ ih =>
    rw [htmlSafeScan_chr_step h1 h2 h3]
    exact ih
  | ent he _ ih =>
    rw [htmlSafeScan_ent_whole he]
    exact ih
  | tag ht _ ih =>
    rw [htmlSafeScan_tag_whole ht]
    exact ih

theorem HtmlSafe_append {a b : List Char} (ha : HtmlSafe a) (hb : HtmlSafe b) :
    HtmlSafe (a ++ b) := by
  induction ha with
  | nil => exact hb
  | chr h1 h2 h3 _ ih => exact HtmlSafe.chr h1 h2 h3 ih
  | ent he _ ih =>
    rw [List.append_assoc]
    exact HtmlSafe.ent he ih
  | tag ht _ ih =>
    rw [List.append_assoc]
    exact HtmlSafe.tag ht ih

theorem HtmlSafe_tag_single {t : List Char} (ht : t ∈ ALLOWED_TAGS) : HtmlSafe t := by
  have h := HtmlSafe.tag ht HtmlSafe.nil
  simpa using h

theorem replaceChar_append (c : Char) (r a b : List Char) :
    replaceChar c r (a ++ b) = replaceChar c r a ++ replaceChar c r b := by
  induction a with
  | nil => rfl
  | cons x xs ih =>
    by_cases hx : x = c
    · simp [replaceChar, hx, ih]
    · simp [replaceChar, hx, ih]

theorem repl_lt_amp :
    replaceChar '<' (("&lt;").toList) (("&amp;").toList) = ("&amp;").toList := rfl

theorem repl_gt_amp :
    replaceChar '>' (("&gt;").toList) (("&amp;").toList) = ("&amp;").toList := rfl

theorem repl_gt_lt :
    replaceChar '>' (("&gt;").toList) (("&lt;").toList) = ("&lt;").toList := rfl

theorem escapeHtml_cons (c : Char) (rest : List Char) :
    escapeHtml (c :: rest) = escChar c ++ escapeHtml rest := by
  unfold escapeHtml escChar
  by_cases h1 : c = '&'
  · subst h1
    simp [replaceChar, replaceChar_append, repl_lt_amp, repl_gt_amp]
  · by_cases h2 : c = '<'
    · subst h2
      simp [replaceChar, replaceChar_append, repl_gt_lt, h1]
    · by_cases h3 : c = '>'
      · subst h3
        simp [replaceChar, replaceChar_append, h1, h2]
      · simp [replaceChar, replaceChar_append, h1, h2, h3]

theorem escapeHtml_eq_flatMap (s : List Char) : escapeHtml s = s.flatMap escChar := by
  induction s with
  | nil => rfl
  | cons c rest ih => rw [escapeHtml_cons, ih, List.flatMap_cons]

theorem escChar_no_ltgt {c x : Char} (hx : x ∈ escChar c) : x ≠ '<' ∧ x ≠ '>' := by
  unfold escChar at hx
  by_cases h1 : c = '&'
  · rw [if_pos h1] at hx
    exact (by decide : ∀ y ∈ (("&amp;").toList), y ≠ '<' ∧ y ≠ '>') x hx
  · rw [if_neg h1] at hx
    by_cases h2 : c = '<'
    · rw [if_pos h2] at hx
      exact (by decide : ∀ y ∈ (("&lt;").toList), y ≠ '<' ∧ y ≠ '>') x hx
    · rw [if_neg h2] at hx
      by_cases h3 : c = '>'
      · rw [if_pos h3] at hx
        exact (by decide : ∀ y ∈ (("&gt;").toList), y ≠ '<' ∧ y ≠ '>') x hx
      · rw [if_neg h3] at hx
        simp at hx
        subst hx
        exact ⟨h2, h3⟩

theorem ampScan_cons_ne {c : Char} {r : List Char} (h : c ≠ '&') :
    ampScan (c :: r) = ampScan r := by
  simp only [ampScan]
  rw [if_neg h]

theorem ampScan_tail {c : Char} {r : List Char} (h : ampScan (c :: r) = true) :
    ampScan r = true := by
  by_cases hc : c = '&'
  · subst hc
    have h2 : ((matchAtomLen ENT_RESTS r).isSome && ampScan r) = true := h
    rw [Bool.and_eq_true] at h2
    exact h2.2
  · rwa [ampScan_cons_ne hc] at h

theorem ampScan_drop (n : Nat) {l : List Char} (h : ampScan l = true) :
    ampScan (l.drop n) = true := by
  induction n generalizing l with
  | zero => simpa using h
  | succ m ih =>
    cases l with
    | nil => simpa using h
    | cons c r => exact ih (ampScan_tail h)

theorem ampScan_append_no_amp :
    ∀ (p : List Char), '&' ∉ p → ∀ {tail : List Char}, ampScan tail = true →
      ampScan (p ++ tail) = true := by
  intro p
  induction p with
  | nil =>
    intro _ tail h
    simpa using h
  | cons x xs ih =>
    intro hno tail h
    have hxne : x ≠ '&' := fun hx => by
      subst hx
      exact hno (List.mem_cons_self _ _)
    rw [List.cons_append, ampScan_cons_ne hxne]
    exact ih (fun hm2 => hno (List.mem_cons_of_mem _ hm2)) h

theorem ampScan_entity_prepend {e : List Char} (he : e ∈ HTML_ENTITIES) {tail : List Char}
    (h : ampScan tail = true) : ampScan (e ++ tail) = true := by
  have h1 : e = '&' :: e.drop 1 ∧ e.drop 1 ∈ ENT_RESTS ∧ '&' ∉ e.drop 1 := by
    have he2 := he
    simp [HTML_ENTITIES] at he2
    rcases he2 with rfl | rfl | rfl <;> exact ⟨rfl, by decide, by decide⟩
  rw [h1.1]
  have hsub : ampScan (e.drop 1 ++ tail) = true := ampScan_append_no_amp _ h1.2.2 h
  have hm : matchAtomLen ENT_RESTS (e.drop 1 ++ tail) = some (e.drop 1).length :=
    matchAtomLen_mem entRests_pf h1.2.1
  show ((matchAtomLen ENT_RESTS (e.drop 1 ++ tail)).isSome && ampScan (e.drop 1 ++ tail)) = true
  rw [hm, hsub]
  rfl

theorem ampScan_flatMap (s : List Char) : ampScan (s.flatMap escChar) = true := by
  induction s with
  | nil => rfl
  | cons c rest ih =>
    rw [List.flatMap_cons]
    unfold escChar
    by_cases h1 : c = '&'
    · rw [if_pos h1]
      exact ampScan_entity_prepend (by decide) ih
    · rw [if_neg h1]
      by_cases h2 : c = '<'
      · rw [if_pos h2]
        exact ampScan_entity_prepend (by decide) ih
      · rw [if_neg h2]
        by_cases h3 : c = '>'
        · rw [if_pos h3]
          exact ampScan_entity_prepend (by decide) ih
        · rw [if_neg h3]
          show ampScan (c :: rest.flatMap escChar) = true
          rw [ampScan_cons_ne h1]
          exact ih

theorem findCloseFrom_drop : ∀ (l : List Char) (j : Nat), findCloseFrom l = some j →
    l.drop j = '*' :: '*' :: l.drop (j + 2) := by
  intro l
  induction l with
  | nil =>
    intro j h
    simp [findCloseFrom] at h
  | cons c rest ih =>
    intro j h
    cases rest with
    | nil => simp [findCloseFrom] at h
    | cons d rest2 =>
      simp only [findCloseFrom] at h
      by_cases hcd : c = '*' ∧ d = '*'
      · rw [if_pos hcd] at h
        injection h with hj
        subst hj
        obtain ⟨rfl, rfl⟩ := hcd
        rfl
      · rw [if_neg hcd] at h
        by_cases hn : c = '\n'
        · rw [if_pos hn] at h
          exact absurd h (by simp)
        · rw [if_neg hn] at h
          obtain ⟨j2, hj2, hj⟩ := Option.map_eq_some'.1 h
          subst hj
          show (d :: rest2).drop j2 = '*' :: '*' :: (d :: rest2).drop (j2 + 2)
          exact ih j2 hj2

theorem findCloseIdx_drop {l : List Char} {i : Nat} (h : findCloseIdx l = some i) :
    l.drop i = '*' :: '*' :: l.drop (i + 2) := by
  cases l with
  | nil => simp [findCloseIdx] at h
  | cons c rest =>
    simp only [findCloseIdx] at h
    by_cases hn : c = '\n'
    · rw [if_pos hn] at h
      exact absurd h (by simp)
    · rw [if_neg hn] at h
      obtain ⟨j, hj2, hj⟩ := Option.map_eq_some'.1 h
      subst hj
      show rest.drop j = '*' :: '*' :: rest.drop (j + 2)
      exact findCloseFrom_drop rest j hj2

theorem entRests_no_star : ∀ p ∈ ENT_RESTS, '*' ∉ p := by decide

theorem HtmlSafe_prefix_append :
    ∀ (n : Nat) (a w z : List Char), a.length ≤ n →
      ampScan (a ++ w) = true → '<' ∉ a → '>' ∉ a →
      (∀ x ∈ w.take 1, x = '*') → HtmlSafe z → HtmlSafe (a ++ z) := by
  intro n
  induction n with
  | zero =>
    intro a w z hlen _ _ _ _ hz
    have ha : a = [] := List.eq_nil_of_length_eq_zero (Nat.le_zero.1 hlen)
    subst ha
    simpa using hz
  | succ m ih =>
    intro a w z hlen hamp hlt hgt hw hz
    cases a with
    | nil => simpa using hz
    | cons c a2 =>
      by_cases hc : c = '&'
      · subst hc
        have h2 : ((matchAtomLen ENT_RESTS (a2 ++ w)).isSome && ampScan (a2 ++ w)) = true := hamp
        rw [Bool.and_eq_true] at h2
        obtain ⟨k, hk⟩ := Option.isSome_iff_exists.1 h2.1
        obtain ⟨p, hp, hsw, hkp⟩ := matchAtomLen_some hk
        have hple : p.length ≤ a2.length := by
          by_contra hgt2
          push_neg at hgt2
          cases w with
          | nil =>
            have hll := startsWithL_length_le (by simpa using hsw)
            omega
          | cons x t =>
            have hxp : x ∈ p := mem_of_startsWithL_long hsw hgt2
            have hxstar : x = '*' := hw x (by simp)
            subst hxstar
            exact entRests_no_star p hp hxp
        have hsa : startsWithL p a2 = true := startsWithL_of_le hsw hple
        have ha2 : a2 = p ++ a2.drop p.length := startsWithL_eq_append hsa
        have hrec : HtmlSafe (a2.drop p.length ++ z) := by
          apply ih (a2.drop p.length) w z
          · have h1 : a2.length ≤ m := by
              simp only [List.length_cons] at hlen
              omega
            have h2l : (a2.drop p.length).length ≤ a2.length := by
              simp [List.length_drop]
            omega
          · have hd : ampScan ((a2 ++ w).drop p.length) = true := ampScan_drop _ h2.2
            rwa [List.drop_append_of_le_length hple] at hd
          · exact fun hm => hlt (List.mem_cons_of_mem _ (List.drop_subset _ _ hm))
          · exact fun hm => hgt (List.mem_cons_of_mem _ (List.drop_subset _ _ hm))
          · exact hw
          · exact hz
        have hent : ('&' :: p) ∈ HTML_ENTITIES := by
          have hp2 := hp
          simp [ENT_RESTS, HTML_ENTITIES] at hp2
          rcases hp2 with rfl | rfl | rfl <;> decide
        have hgoal : ('&' :: a2) ++ z = ('&' :: p) ++ (a2.drop p.length ++ z) := by
          conv_lhs => rw [ha2]
          simp
        rw [hgoal]
        exact HtmlSafe.ent hent hrec
      · have hc1 : c ≠ '<' := fun he => by
          subst he
          exact hlt (List.mem_cons_self _ _)
        have hc2 : c ≠ '>' := fun he => by
          subst he
          exact hgt (List.mem_cons_self _ _)
        have hamp2 : ampScan (a2 ++ w) = true := ampScan_tail hamp
        exact HtmlSafe.chr hc1 hc2 hc
          (ih a2 w z (by simp only [List.length_cons] at hlen; omega) hamp2
            (fun hm => hlt (List.mem_cons_of_mem _ hm))
            (fun hm => hgt (List.mem_cons_of_mem _ hm)) hw hz)

theorem HtmlSafe_escaped (s : List Char) : HtmlSafe (escapeHtml s) := by
  rw [escapeHtml_eq_flatMap]
  have hlt : '<' ∉ s.flatMap escChar := by
    intro hm
    obtain ⟨c, _, hc⟩ := List.mem_flatMap.1 hm
    exact (escChar_no_ltgt hc).1 rfl
  have hgt : '>' ∉ s.flatMap escChar := by
    intro hm
    obtain ⟨c, _, hc⟩ := List.mem_flatMap.1 hm
    exact (escChar_no_ltgt hc).2 rfl
  have h := HtmlSafe_prefix_append (s.flatMap escChar).length (s.flatMap escChar) [] []
    le_rfl (by simpa using ampScan_flatMap s) hlt hgt (by simp) HtmlSafe.nil
  simpa using h

theorem boldSub_nil : boldSub [] = [] := by
  simp only [boldSub]

theorem boldSub_single (c : Char) : boldSub [c] = [c] := by
  simp only [boldSub]

theorem boldSub_cons_ne_star {c : Char} (hc : c ≠ '*') (rest : List Char) :
    boldSub (c :: rest) = c :: boldSub rest := by
  cases rest with
  | nil => simp only [boldSub]
  | cons d rest2 =>
    simp only [boldSub]
    rw [if_neg (fun h => hc h.1)]

theorem boldSub_append_no_star : ∀ (p : List Char), '*' ∉ p → ∀ (rest : List Char),
    boldSub (p ++ rest) = p ++ boldSub rest := by
  intro p
  induction p with
  | nil =>
    intro _ rest
    simp
  | cons c p2 ih =>
    intro hp rest
    have hc : c ≠ '*' := fun h => by
      subst h
      exact hp (List.mem_cons_self _ _)
    rw [List.cons_append, boldSub_cons_ne_star hc,
      ih (fun hm => hp (List.mem_cons_of_mem _ hm)) rest]
    rfl

theorem boldSub_star_some {rest : List Char} {i : Nat} (hf : findCloseIdx rest = some i) :
    boldSub ('*' :: '*' :: rest) =
      ("<strong>".toList) ++ rest.take i ++ ("</strong>".toList) ++
        boldSub (rest.drop (i + 2)) := by
  simp only [boldSub]
  rw [if_pos (And.intro trivial trivial), hf]

theorem boldSub_star_none {rest : List Char} (hf : findCloseIdx rest = none) :
    boldSub ('*' :: '*' :: rest) = '*' :: boldSub ('*' :: rest) := by
  simp only [boldSub]
  rw [if_pos (And.intro trivial trivial), hf]

theorem boldSub_safe :
    ∀ (n : Nat) (s : List Char), s.length ≤ n →
      '<' ∉ s → '>' ∉ s → ampScan s = true → HtmlSafe (boldSub s) := by
  intro n
  induction n with
  | zero =>
    intro s hlen _ _ _
    have hs : s = [] := List.eq_nil_of_length_eq_zero (Nat.le_zero.1 hlen)
    subst hs
    rw [boldSub_nil]
    exact HtmlSafe.nil
  | succ m ih =>
    intro s hlen hlt hgt hamp
    rcases s with _ | ⟨c, _ | ⟨d, rest⟩⟩
    · rw [boldSub_nil]
      exact HtmlSafe.nil
    · rw [boldSub_single]
      by_cases hc : c = '&'
      · subst hc
        exact absurd hamp (by decide)
      · exact HtmlSafe.chr
          (fun he => by subst he; exact hlt (List.mem_cons_self _ _))
          (fun he => by subst he; exact hgt (List.mem_cons_self _ _))
          hc HtmlSafe.nil
    · by_cases hcd : c = '*' ∧ d = '*'
      · obtain ⟨rfl, rfl⟩ := hcd
        have hamp2 : ampScan rest = true := ampScan_tail (ampScan_tail hamp)
        cases hf : findCloseIdx rest with
        | some i =>
          rw [boldSub_star_some hf]
          have hrec : HtmlSafe (boldSub (rest.drop (i + 2))) := by
            apply ih (rest.drop (i + 2))
            · have hdl : (rest.drop (i + 2)).length ≤ rest.length := by
                simp [List.length_drop]
              simp only [List.length_cons] at hlen
              omega
            · exact fun hm => hlt (List.mem_cons_of_mem _
                (List.mem_cons_of_mem _ (List.drop_subset _ _ hm)))
            · exact fun hm => hgt (List.mem_cons_of_mem _
                (List.mem_cons_of_mem _ (List.drop_subset _ _ hm)))
            · exact ampScan_drop _ hamp2
          have hclose : HtmlSafe (("</strong>").toList ++ boldSub (rest.drop (i + 2))) :=
            HtmlSafe.tag (by decide) hrec
          have hdropstar := findCloseIdx_drop hf
          have hmid : HtmlSafe (rest.take i ++
              (("</strong>").toList ++ boldSub (rest.drop (i + 2)))) := by
            apply HtmlSafe_prefix_append (rest.take i).length (rest.take i) (rest.drop i) _
              le_rfl
            · rw [List.take_append_drop]
              exact hamp2
            · exact fun hm => hlt (List.mem_cons_of_mem _
                (List.mem_cons_of_mem _ (List.take_subset _ _ hm)))
            · exact fun hm => hgt (List.mem_cons_of_mem _
                (List.mem_cons_of_mem _ (List.take_subset _ _ hm)))
            · rw [hdropstar]
              intro x hx
              simp at hx
              exact hx
            · exact hclose
          have hassoc : ("<strong>").toList ++ rest.take i ++ ("</strong>").toList ++
              boldSub (rest.drop (i + 2)) =
              ("<strong>").toList ++ (rest.take i ++
                (("</strong>").toList ++ boldSub (rest.drop (i + 2)))) := by
            simp [List.append_assoc]
          rw [hassoc]
          exact HtmlSafe.tag (by decide) hmid
        | none =>
          rw [boldSub_star_none hf]
          refine HtmlSafe.chr (by decide) (by decide) (by decide) ?_
          apply ih ('*' :: rest)
          · simp only [List.length_cons] at hlen ⊢
            omega
          · intro hm
            rcases List.mem_cons.1 hm with h | h
            · exact absurd h (by decide)
            · exact hlt (List.mem_cons_of_mem _ (List.mem_cons_of_mem _ h))
          · intro hm
            rcases List.mem_cons.1 hm with h | h
            · exact absurd h (by decide)
            · exact hgt (List.mem_cons_of_mem _ (List.mem_cons_of_mem _ h))
          · rw [ampScan_cons_ne (by decide)]
            exact hamp2
      · have heq : boldSub (c :: d :: rest) = c :: boldSub (d :: rest) := by
          simp only [boldSub]
          rw [if_neg hcd]
        rw [heq]
        by_cases hc : c = '&'
        · subst hc
          have h2 : ((matchAtomLen ENT_RESTS (d :: rest)).isSome &&
              ampScan (d :: rest)) = true := hamp
          rw [Bool.and_eq_true] at h2
          obtain ⟨k, hk⟩ := Option.isSome_iff_exists.1 h2.1
          obtain ⟨p, hp, hsw, hkp⟩ := matchAtomLen_some hk
          have hdr : (d :: rest) = p ++ (d :: rest).drop p.length := startsWithL_eq_append hsw
          have hnostar : '*' ∉ p := entRests_no_star p hp
          have hrec : HtmlSafe (boldSub ((d :: rest).drop p.length)) := by
            apply ih ((d :: rest).drop p.length)
            · have h2l : ((d :: rest).drop p.length).length ≤ (d :: rest).length := by
                simp [List.length_drop]
              simp only [List.length_cons] at hlen h2l ⊢
              omega
            · exact fun hm => hlt (List.mem_cons_of_mem _ (List.drop_subset _ _ hm))
            · exact fun hm => hgt (List.mem_cons_of_mem _ (List.drop_subset _ _ hm))
            · exact ampScan_drop _ h2.2
          have hout : boldSub (d :: rest) = p ++ boldSub ((d :: rest).drop p.length) := by
            conv_lhs => rw [hdr]
            rw [boldSub_append_no_star p hnostar]
          rw [hout]
          have hent : ('&' :: p) ∈ HTML_ENTITIES := by
            have hp2 := hp
            simp [ENT_RESTS, HTML_ENTITIES] at hp2
            rcases hp2 with rfl | rfl | rfl <;> decide
          show HtmlSafe (('&' :: p) ++ boldSub ((d :: rest).drop p.length))
          exact HtmlSafe.ent hent hrec
        · refine HtmlSafe.chr
            (fun he => by subst he; exact hlt (List.mem_cons_self _ _))
            (fun he => by subst he; exact hgt (List.mem_cons_self _ _))
            hc ?_
          apply ih (d :: rest)
          · simp only [List.length_cons] at hlen ⊢
            omega
          · exact fun hm => hlt (List.mem_cons_of_mem _ hm)
          · exact fun hm => hgt (List.mem_cons_of_mem _ hm)
          · exact ampScan_tail hamp

theorem replaceChar_nl_safe {l : List Char} (h : HtmlSafe l) :
    HtmlSafe (replaceChar '\n' (("<br>").toList) l) := by
  induction h with
  | nil => exact HtmlSafe.nil
  | @chr c rest h1 h2 h3 _ ih =>
    by_cases hc : c = '\n'
    · rw [show replaceChar '\n' (("<br>").toList) (c :: rest) =
          ("<br>").toList ++ replaceChar '\n' (("<br>").toList) rest by
        rw [hc]; simp [replaceChar]]
      exact HtmlSafe.tag (by decide) ih
    · rw [show replaceChar '\n' (("<br>").toList) (c :: rest) =
          c :: replaceChar '\n' (("<br>").toList) rest by simp [replaceChar, hc]]
      exact HtmlSafe.chr h1 h2 h3 ih
  | @ent e rest he _ ih =>
    rw [replaceChar_append]
    have hrepl : replaceChar '\n' (("<br>").toList) e = e := by
      have he2 := he
      simp [HTML_ENTITIES] at he2
      rcases he2 with rfl | rfl | rfl <;> rfl
    rw [hrepl]
    exact HtmlSafe.ent he ih
  | @tag t rest ht _ ih =>
    rw [replaceChar_append]
    have hrepl : replaceChar '\n' (("<br>").toList) t = t := by
      have ht2 := ht
      simp [ALLOWED_TAGS] at ht2
      rcases ht2 with rfl | rfl | rfl | rfl | rfl | rfl | rfl <;> rfl
    rw [hrepl]
    exact HtmlSafe.tag ht ih

theorem h3_html_safe (content : List Char) :
    HtmlSafe (H3_OPEN ++ escapeHtml content ++ H3_CLOSE) := by
  have h1 : HtmlSafe (escapeHtml content ++ H3_CLOSE) :=
    HtmlSafe_append (HtmlSafe_escaped content) (HtmlSafe_tag_single (by decide))
  rw [List.append_assoc]
  exact HtmlSafe.tag (by decide) h1

theorem heading_line_to_html_safe (line : List Char) :
    HtmlSafe (_heading_line_to_html line) := by
  unfold _heading_line_to_html
  exact h3_html_safe _

theorem paragraphHtml_safe (text : List Char) : HtmlSafe (paragraphHtml text) := by
  unfold paragraphHtml
  have hesc : HtmlSafe (boldSub (escapeHtml text)) := by
    apply boldSub_safe (escapeHtml text).length _ le_rfl
    · rw [escapeHtml_eq_flatMap]
      intro hm
      obtain ⟨c, _, hc⟩ := List.mem_flatMap.1 hm
      exact (escChar_no_ltgt hc).1 rfl
    · rw [escapeHtml_eq_flatMap]
      intro hm
      obtain ⟨c, _, hc⟩ := List.mem_flatMap.1 hm
      exact (escChar_no_ltgt hc).2 rfl
    · rw [escapeHtml_eq_flatMap]
      exact ampScan_flatMap text
  have hmid : HtmlSafe (replaceChar '\n' (("<br>").toList) (boldSub (escapeHtml text))) :=
    replaceChar_nl_safe hesc
  have h1 : HtmlSafe (replaceChar '\n' (("<br>").toList) (boldSub (escapeHtml text)) ++
      P_CLOSE) :=
    HtmlSafe_append hmid (HtmlSafe_tag_single (by decide))
  rw [List.append_assoc]
  exact HtmlSafe.tag (by decide) h1

theorem joinSep_nl_safe : ∀ (parts : List (List Char)), (∀ p ∈ parts, HtmlSafe p) →
    HtmlSafe (joinSep ['\n'] parts) := by
  intro parts
  induction parts with
  | nil =>
    intro _
    exact HtmlSafe.nil
  | cons x xs ih =>
    intro h
    cases xs with
    | nil => exact h x (List.mem_cons_self _ _)
    | cons y rest =>
      show HtmlSafe ((x ++ ['\n']) ++ joinSep ['\n'] (y :: rest))
      refine HtmlSafe_append (HtmlSafe_append (h x (List.mem_cons_self _ _)) ?_) ?_
      · exact HtmlSafe.chr (by decide) (by decide) (by decide) HtmlSafe.nil
      · exact ih (fun p hp => h p (List.mem_cons_of_mem _ hp))

theorem blockParts_safe (block : List Char) : ∀ p ∈ blockParts block, HtmlSafe p := by
  unfold blockParts
  by_cases hb : (pStrip block).isEmpty
  · rw [if_pos hb]
    intro p hp
    simp at hp
  · rw [if_neg hb]
    cases ((splitNl (pStrip block)).map pStrip).filter (fun ln => !ln.isEmpty) with
    | nil =>
      intro p hp
      simp at hp
    | cons l0 restLines =>
      show ∀ p ∈ (if _is_heading_line l0 = true then
          if (joinSep ['\n'] restLines).isEmpty = true then [_heading_line_to_html l0]
          else [_heading_line_to_html l0, paragraphHtml (joinSep ['\n'] restLines)]
        else [paragraphHtml (pStrip block)]), HtmlSafe p
      intro p hp
      by_cases hh : _is_heading_line l0 = true
      · rw [if_pos hh] at hp
        by_cases hr : (joinSep ['\n'] restLines).isEmpty = true
        · rw [if_pos hr] at hp
          simp at hp
          subst hp
          exact heading_line_to_html_safe l0
        · rw [if_neg hr] at hp
          simp at hp
          rcases hp with rfl | rfl
          · exact heading_line_to_html_safe l0
          · exact paragraphHtml_safe _
      · rw [if_neg hh] at hp
        simp at hp
        subst hp
        exact paragraphHtml_safe _

theorem reflection_to_html_safe (reflection : String) :
    HtmlSafe (reflection_to_html reflection).data := by
  show HtmlSafe (joinSep ['\n'] ((splitParas reflection.data []).flatMap blockParts))
  apply joinSep_nl_safe
  intro p hp
  obtain ⟨b, _, hpb⟩ := List.mem_flatMap.1 hp
  exact blockParts_safe b p hpb

/-- C10: `reflection_to_html` neutralizes HTML in its input. First, the
escaping chain rewrites the text character-wise, sending `&`, `<` and `>` to
`&amp;`, `&lt;` and `&gt;` and keeping every other character unchanged: it
equals `flatMap escChar`. Second, every output of the renderer is
structurally safe — a concatenation of the renderer's own tags, the three
escape entities, and plain characters other than `<`, `>`, `&` — and hence
accepted by the scanner: every `<` in the output opens one of the
renderer's h3, p, br or strong tags, every `&` starts one of the three
escape entities, and no raw `>` occurs outside those tags. -/
theorem claim_C10_html_neutralized :
    (∀ s : List Char, escapeHtml s = s.flatMap escChar) ∧
    (∀ reflection : String, HtmlSafe (reflection_to_html reflection).data ∧
      htmlSafeScan (reflection_to_html reflection).data = true) := by
  refine ⟨escapeHtml_eq_flatMap, fun r => ?_⟩
  have h := reflection_to_html_safe r
  exact ⟨h, htmlSafeScan_of_HtmlSafe h⟩
